import Mathlib

/-!
Verification of the Activity Assignment Algorithm (`auto_assign.py`).

The Python program is shallowly embedded as follows:
* Python dicts become ordered association lists (insertion order preserved,
  first-match lookup), matching CPython dict semantics.
* The mutable capacity dictionary `activity_capacity` becomes a total
  function `String → String → Int`; a value of `0` at a key stands both for
  an exhausted capacity and for an absent key.  The embedding assumes the
  well-formed input domain (student ids and day labels contain no
  underscore, and each student's day keys lie in `DAYS`), on which the
  program never reads an absent key and never hits a `ValueError` in
  `node.split`.
* `networkx.DiGraph` becomes a list of directed edges; `add_edge` replaces
  an existing edge with the same endpoints, as networkx does.
* networkx keys nodes by their name strings, so the student-day node
  `f"{sid}_{day}"` and the activity-day node `f"{day2}_{activity}"` are a
  single merged node whenever `sid = day2` and `day = activity` (a student
  named like a day label whose record's day is activity-named).  The
  structural `Node` type below keeps the two kinds distinct and is exact
  only on collision-free inputs; the string-keyed builder
  `create_priority_network_str` models the program's real node identity
  and is used to exhibit the merged-node over-commitment (claim C2).
* The external max-flow solver (`nx.maximum_flow`) is modelled from the
  spec: section 4.3 requires any integral maximum flow with deterministic
  tie-breaking in a stable node order.  In every network built by
  `create_priority_network` each student-day node has at most one outgoing
  edge, so the greedy routing below (students in insertion order, each unit
  routed iff the activity-day's sink edge still has residual capacity) is
  such a maximum flow.
-/

/-- The three preference levels `'1st'`, `'2nd'`, `'3rd'` (the keys of a
day's preference dict in `load_student_preferences`). -/
inductive Level where
  | first
  | second
  | third
deriving DecidableEq, Repr

/-- One day's preference record: the values of
`{'1st_preference': ..., '2nd_preference': ..., '3rd_preference': ...}`. -/
structure DayPrefs where
  first : String
  second : String
  third : String
deriving DecidableEq, Repr

/-- One student's record: `{'weight': ..., 'days': {...}}`. -/
structure StudentData where
  weight : String
  days : List (String × DayPrefs)
deriving DecidableEq, Repr

/-- The `preferences` dict: student id to student record, in insertion
order. -/
abbrev Preferences := List (String × StudentData)

/-- `DAYS = frozenset(['mon', 'tue', 'wed', 'thu'])`. -/
def DAYS : List String := ["mon", "tue", "wed", "thu"]

/-- `prefs[f'{pref_level}_preference']`. -/
def prefAt (dp : DayPrefs) : Level → String
  | Level.first => dp.first
  | Level.second => dp.second
  | Level.third => dp.third

/-- First-match lookup in an association list (Python dict read). -/
def alookup {β : Type} : List (String × β) → String → Option β
  | [], _ => none
  | (k, v) :: rest, key => if key = k then some v else alookup rest key

/-- Nodes of the flow networks: `'source'`, `'sink'`, student-day nodes
`f"{student_id}_{day}"` and activity-day nodes `f"{day}_{activity}"`.
Node identity here is structural: an `sd` node is never an `ad` node.
This matches the program's string node names only on inputs where no
student id equals a day label; on colliding names networkx merges the two
nodes into one (see `create_priority_network_str` and claim C2). -/
inductive Node where
  | source
  | sink
  | sd (sid day : String)
  | ad (day act : String)
deriving DecidableEq, Repr

/-- A directed edge with its `capacity` and `weight` attributes. -/
structure Edge where
  src : Node
  dst : Node
  capacity : Int
  weight : Int
deriving DecidableEq, Repr

/-- `G.add_edge`: replaces the attributes of an existing edge with the same
endpoints, otherwise appends the edge. -/
def addEdge (es : List Edge) (e : Edge) : List Edge :=
  if es.any (fun x => decide (x.src = e.src ∧ x.dst = e.dst)) then
    es.map (fun x => if x.src = e.src ∧ x.dst = e.dst then e else x)
  else
    es ++ [e]

/-- The `activity_capacity` dictionary as a total function; `0` also stands
for an absent key. -/
abbrev SLedger := String → String → Int

/-- `create_priority_network(priority_students, remaining_capacity,
pref_level)` (lines 123-152): one source edge per student-day, one edge to
the current level's activity-day when its remaining capacity is positive,
and a sink edge carrying the remaining capacity.  Note that it receives no
assignment information at all.  This is the structural-node rendering,
exact on collision-free inputs; `create_priority_network_str` below keys
the same construction by the program's node-name strings. -/
def create_priority_network (priority_students : Preferences)
    (remaining_capacity : SLedger) (pref_level : Level) : List Edge :=
  priority_students.foldl (fun es p =>
    p.2.days.foldl (fun es q =>
      let es1 := addEdge es ⟨Node.source, Node.sd p.1 q.1, 1, 0⟩
      let activity := prefAt q.2 pref_level
      let es2 :=
        if remaining_capacity q.1 activity > 0 then
          addEdge es1 ⟨Node.sd p.1 q.1, Node.ad q.1 activity, 1, 0⟩
        else es1
      addEdge es2 ⟨Node.ad q.1 activity, Node.sink, remaining_capacity q.1 activity, 0⟩)
      es) []

/-- One unit of flow extracted from the solved network: flow 1 on the edge
from `sd sid day` to `ad adDay act`. -/
structure FlowEntry where
  sid : String
  day : String
  adDay : String
  act : String
deriving DecidableEq, Repr

/-- Has a unit already been routed out of the student-day node? -/
def routedSD (acc : List FlowEntry) (s d : String) : Bool :=
  acc.any (fun x => decide (x.sid = s ∧ x.day = d))

/-- Units of flow already entering the activity-day node `ad d a`. -/
def countToAd (l : List FlowEntry) (d a : String) : Nat :=
  (l.filter (fun x => decide (x.adDay = d ∧ x.act = a))).length

/-- Units of flow recorded with student-side day `d` and activity `a`. -/
def countSd (l : List FlowEntry) (d a : String) : Nat :=
  (l.filter (fun x => decide (x.day = d ∧ x.act = a))).length

/-- Capacity of the sink edge out of `ad d a` (0 when absent). -/
def sinkCapOf (es : List Edge) (d a : String) : Int :=
  match es.find? (fun e => decide (e.src = Node.ad d a ∧ e.dst = Node.sink)) with
  | some e => e.capacity
  | none => 0

/-- Modelled from the spec (section 4.3): the external `nx.maximum_flow`
primitive, instantiated to the networks built by
`create_priority_network`, where each student-day node has at most one
outgoing edge so greedy routing in node-insertion order is an integral
maximum flow with the required deterministic tie-breaking. -/
def solveMaxFlowAux (es0 : List Edge) : List Edge → List FlowEntry → List FlowEntry
  | [], acc => acc
  | e :: rest, acc =>
    match e.src, e.dst with
    | Node.sd s d, Node.ad d2 a =>
      if routedSD acc s d = false ∧ (countToAd acc d2 a : Int) < sinkCapOf es0 d2 a
          ∧ 1 ≤ e.capacity then
        solveMaxFlowAux es0 rest (acc ++ [⟨s, d, d2, a⟩])
      else
        solveMaxFlowAux es0 rest acc
    | _, _ => solveMaxFlowAux es0 rest acc

/-- Modelled from the spec (section 4.3): the saturated student-day to
activity-day edges of a maximum flow of the network. -/
def solveMaxFlow (es : List Edge) : List FlowEntry :=
  solveMaxFlowAux es es []

/-- The per-tier `group_assignments` dict: student id to (day to activity),
in insertion order.  Also the type of the final `assignments` dict. -/
abbrev GA := List (String × List (String × String))

/-- `group_assignments[student_id][day]` (two-level dict read). -/
def lookup2 (ga : GA) (sid d : String) : Option String :=
  match alookup ga sid with
  | none => none
  | some das => alookup das d

/-- `group_assignments[student_id][day] = activity` on a key known to be
absent (the code only assigns after the `day not in` check). -/
def insertGA : GA → String → String → String → GA
  | [], sid, d, a => [(sid, [(d, a)])]
  | (s, das) :: rest, sid, d, a =>
    if s = sid then (s, das ++ [(d, a)]) :: rest
    else (s, das) :: insertGA rest sid d a

/-- `activity_capacity[day][activity] -= 1` (line 115): an unconditional
decrement; there is no exhaustion check and no error path. -/
def commitCapacity (c : SLedger) (d a : String) : SLedger :=
  fun d' a' => if d' = d ∧ a' = a then c d' a' - 1 else c d' a'

/-- `student_id.startswith('S')` (line 107): the first character is S. -/
def startsWithS (s : String) : Bool :=
  match s.data with
  | [] => false
  | c :: _ => c = 'S'

/-- ASCII whitespace, for the `.strip()` calls of the loader. -/
def isSpaceChar (c : Char) : Bool :=
  c = ' ' ∨ c = '\t' ∨ c = '\n' ∨ c = '\r'

/-- `str.strip()` on ASCII whitespace. -/
def trimStr (s : String) : String :=
  ⟨((s.data.dropWhile isSpaceChar).reverse.dropWhile isSpaceChar).reverse⟩

/-- ASCII lowercasing of one character, for `str.lower()`. -/
def lowerChar (c : Char) : Char :=
  if 'A' ≤ c ∧ c ≤ 'Z' then Char.ofNat (c.toNat + 32) else c

/-- `str.lower()` on ASCII letters. -/
def lowerStr (s : String) : String :=
  ⟨s.data.map lowerChar⟩

/-- The flow-extraction loop of `assign_priority_group` (lines 104-115):
for each saturated student-day edge, if the node name starts with `'S'` and
the (student, day) pair is not yet in `group_assignments`, record the
assignment and decrement the capacity at `(day, activity)`. -/
def processFlow : List FlowEntry → GA → SLedger → GA × SLedger
  | [], ga, c => (ga, c)
  | e :: rest, ga, c =>
    if startsWithS e.sid = true ∧ lookup2 ga e.sid e.day = none then
      processFlow rest (insertGA ga e.sid e.day e.act) (commitCapacity c e.day e.act)
    else
      processFlow rest ga c

/-- One (tier, level) pass of `assign_priority_group`: build the network
from the current capacities, solve it, and process the flow. -/
def runLevelPass (priority_students : Preferences) (pref_level : Level)
    (st : GA × SLedger) : GA × SLedger :=
  let G_pref := create_priority_network priority_students st.2 pref_level
  processFlow (solveMaxFlow G_pref) st.1 st.2

/-- The `'1st'`, `'2nd'`, `'3rd'` iteration order of
`assign_priority_group` (line 93). -/
def levelsList : List Level := [Level.first, Level.second, Level.third]

/-- `assign_priority_group(priority_students, label, activity_capacity)`
(lines 89-121): try each preference level in order, threading
`group_assignments` and the shared capacity dictionary. -/
def assign_priority_group (priority_students : Preferences) (c : SLedger) :
    GA × SLedger :=
  levelsList.foldl (fun st lvl => runLevelPass priority_students lvl st) ([], c)

/-- `dict.update` on the two-level `assignments` dict: replace the whole
per-student value when the key exists, otherwise append it. -/
def setKeyGA (ga : GA) (sid : String) (das : List (String × String)) : GA :=
  if (alookup ga sid).isSome then
    ga.map (fun p => if p.1 = sid then (sid, das) else p)
  else
    ga ++ [(sid, das)]

/-- `assignments.update(new_assignments)` (line 180). -/
def updateGA (ga new : GA) : GA :=
  new.foldl (fun acc p => setKeyGA acc p.1 p.2) ga

/-- The capacity-initialization loop of `assign_students_to_activities`
(lines 162-169): every activity appearing among any student's three
choices for a day gets capacity 15; reading `student_data['days'][day]`
for a student without that day raises `KeyError`, modelled by `none`. -/
def initDayCapacity : Preferences → String → SLedger → Option SLedger
  | [], _, c => some c
  | p :: rest, d, c =>
    match alookup p.2.days d with
    | none => none
    | some dp =>
      initDayCapacity rest d
        (fun d' a' =>
          if d' = d ∧ (a' = dp.first ∨ a' = dp.second ∨ a' = dp.third) then 15
          else c d' a')

/-- `activity_capacity` after the initialization loop over all of `DAYS`,
or `none` when the loop raises `KeyError` (some student lacks some day). -/
def initActivityCapacity (preferences : Preferences) : Option SLedger :=
  DAYS.foldl (fun o d => o.bind (initDayCapacity preferences d)) (some (fun _ _ => 0))

/-- `{sid: data for sid, data in preferences.items() if data['weight'] == w}`. -/
def tierFilter (preferences : Preferences) (w : String) : Preferences :=
  preferences.filter (fun p => p.2.weight = w)

/-- The tier loop of `assign_students_to_activities` (lines 171-180):
high, then medium, then low, threading the shared capacity dictionary and
merging each tier's assignments into the global dict.  Returns `none` when
capacity initialization raises (caught at line 202, returning `None`). -/
def runAllocation (preferences : Preferences) : Option (GA × SLedger) :=
  (initActivityCapacity preferences).map (fun c0 =>
    [tierFilter preferences "high",
     tierFilter preferences "medium",
     tierFilter preferences "low"].foldl
      (fun st g =>
        let r := assign_priority_group g st.2
        (updateGA st.1 r.1, r.2))
      ([], c0))

/-- The final `assignments` dict of a run, when the run completes. -/
def runAssignments (preferences : Preferences) : Option GA :=
  (runAllocation preferences).map (fun st => st.1)

/-- The final remaining capacity at one `(day, activity)` key. -/
def runLedgerAt (preferences : Preferences) (d a : String) : Option Int :=
  (runAllocation preferences).map (fun st => st.2 d a)

/-- The initial capacity at one `(day, activity)` key. -/
def initCapAt (preferences : Preferences) (d a : String) : Option Int :=
  (initActivityCapacity preferences).map (fun c => c d a)

/-- The `preference_satisfaction` counters. -/
structure Satisfaction where
  first : Nat
  second : Nat
  third : Nat
  other : Nat
deriving DecidableEq, Repr

/-- The classification chain of lines 191-198: `'1st'` checked first, then
`'2nd'`, then `'3rd'`, else `'other'`. -/
def bumpSatisfaction (s : Satisfaction) (dp : DayPrefs) (act : String) : Satisfaction :=
  if act = dp.first then { s with first := s.first + 1 }
  else if act = dp.second then { s with second := s.second + 1 }
  else if act = dp.third then { s with third := s.third + 1 }
  else { s with other := s.other + 1 }

/-- The inner satisfaction loop over one student's daily assignments;
`preferences[student_id]['days'][day]` raises `KeyError` (`none`) on a
missing key. -/
def satDays (preferences : Preferences) (sid : String) :
    List (String × String) → Satisfaction → Option Satisfaction
  | [], acc => some acc
  | (d, act) :: rest, acc =>
    match alookup preferences sid with
    | none => none
    | some sdata =>
      match alookup sdata.days d with
      | none => none
      | some dp => satDays preferences sid rest (bumpSatisfaction acc dp act)

/-- The satisfaction loop of lines 186-198. -/
def computeSatisfaction (preferences : Preferences) :
    GA → Satisfaction → Option Satisfaction
  | [], acc => some acc
  | (sid, das) :: rest, acc =>
    (satDays preferences sid das acc).bind (computeSatisfaction preferences rest)

/-- `assign_students_to_activities(G, preferences)` (lines 154-206): note
that the parameter `G` is never read by the body; any exception (including
the capacity-initialization `KeyError`) is caught and `(None, None)` is
returned, as is the case when no assignments were made (line 182). -/
def assign_students_to_activities (G : List Edge) (preferences : Preferences) :
    Option (GA × Satisfaction) :=
  (runAllocation preferences).bind (fun st =>
    if st.1 = [] then none
    else (computeSatisfaction preferences st.1 ⟨0, 0, 0, 0⟩).map (fun sat => (st.1, sat)))

/-- `PREFERENCE_WEIGHTS = {'1st': 0, '2nd': 1, '3rd': 2}`. -/
def PREFERENCE_WEIGHTS : Level → Int
  | Level.first => 0
  | Level.second => 1
  | Level.third => 2

/-- `STUDENT_WEIGHTS[w]`; `none` models the `KeyError` on an unknown tier
name. -/
def STUDENT_WEIGHTS : String → Option Int
  | w =>
    if w = "high" then some 1
    else if w = "medium" then some 100
    else if w = "low" then some 1000
    else none

/-- Append-if-new (first-seen order); stands for Python set insertion. -/
def addNewActivity (l : List String) (a : String) : List String :=
  if a ∈ l then l else l ++ [a]

/-- The `activities_by_day` collection of lines 52-59, for one day. -/
def activitiesForDay (preferences : Preferences) (d : String) : List String :=
  preferences.foldl (fun acc p =>
    match alookup p.2.days d with
    | none => acc
    | some dp => addNewActivity (addNewActivity (addNewActivity acc dp.first) dp.second) dp.third)
    []

/-- The per-student edge construction of `build_flow_network`
(lines 61-78); `none` models the `KeyError` on an unknown weight or on a
day outside `DAYS` (line 55). -/
def buildStudentEdges (es : List Edge) (sid : String) (sdata : StudentData) :
    Option (List Edge) :=
  match STUDENT_WEIGHTS sdata.weight with
  | none => none
  | some sw =>
    sdata.days.foldl (fun o q =>
      o.bind (fun es =>
        if q.1 ∈ DAYS then
          let es1 := addEdge es ⟨Node.source, Node.sd sid q.1, 1, 0⟩
          let es2 := addEdge es1
            ⟨Node.sd sid q.1, Node.ad q.1 q.2.first, 1, PREFERENCE_WEIGHTS Level.first + sw⟩
          let es3 := addEdge es2
            ⟨Node.sd sid q.1, Node.ad q.1 q.2.second, 1, PREFERENCE_WEIGHTS Level.second + sw⟩
          some (addEdge es3
            ⟨Node.sd sid q.1, Node.ad q.1 q.2.third, 1, PREFERENCE_WEIGHTS Level.third + sw⟩)
        else none))
      (some es)

/-- `build_flow_network(preferences, days, max_capacity_per_activity=15)`
(lines 46-87): the weighted network handed to
`assign_students_to_activities` by `run` (line 316). -/
def build_flow_network (preferences : Preferences) (maxCapacityPerActivity : Int) :
    Option (List Edge) :=
  let es0 := preferences.foldl (fun o p => o.bind (fun es => buildStudentEdges es p.1 p.2))
    (some [])
  es0.map (fun es =>
    DAYS.foldl (fun es d =>
      (activitiesForDay preferences d).foldl (fun es a =>
        addEdge es ⟨Node.ad d a, Node.sink, maxCapacityPerActivity, 0⟩) es) es)

/-- One CSV row as seen by `csv.DictReader`; `none` models a missing
required column (`KeyError` on `row[...]`). -/
structure Row where
  student_id : Option String
  day : Option String
  pref1 : Option String
  pref2 : Option String
  pref3 : Option String
  priority : Option String
deriving DecidableEq, Repr

/-- A row missing one of the required fields of
`load_student_preferences`. -/
def malformedRow (r : Row) : Prop :=
  r.student_id = none ∨ r.day = none ∨ r.pref1 = none ∨ r.pref2 = none ∨ r.pref3 = none

instance (r : Row) : Decidable (malformedRow r) := by
  unfold malformedRow
  infer_instance

/-- The row loop of `load_student_preferences` (lines 26-39): the flag
records whether the single `try` around the whole loop caught an
exception, in which case the remaining rows are not processed and the
loaded-count report of line 40 is skipped. -/
def loadRows : List Row → Preferences → Preferences × Bool
  | [], acc => (acc, false)
  | r :: rest, acc =>
    match r.student_id with
    | none => (acc, true)
    | some sid =>
      let acc1 :=
        if (alookup acc sid).isSome then acc
        else acc ++ [(sid, ⟨r.priority.getD "medium", []⟩)]
      match r.day, r.pref1, r.pref2, r.pref3 with
      | some d, some a1, some a2, some a3 =>
        loadRows rest
          (acc1.map (fun p =>
            if p.1 = sid then
              (p.1, ⟨p.2.weight,
                     (if (alookup p.2.days (lowerStr (trimStr d))).isSome then
                        p.2.days.map (fun q =>
                          if q.1 = lowerStr (trimStr d) then
                            (q.1, ⟨trimStr a1, trimStr a2, trimStr a3⟩)
                          else q)
                      else p.2.days ++
                        [(lowerStr (trimStr d), ⟨trimStr a1, trimStr a2, trimStr a3⟩)])⟩)
            else p))
      | _, _, _, _ => (acc1, true)

/-- `load_student_preferences` (lines 21-43) over an already-parsed row
list; the Bool is `true` when the load aborted with an error message
instead of the count report. -/
def load_student_preferences (rows : List Row) : Preferences × Bool :=
  loadRows rows []

/-- Well-formed input domain: unique student ids, unique day keys per
student, and day labels drawn from `DAYS` (the domain on which the Python
dictionaries are faithfully modelled). -/
def WFPrefs (preferences : Preferences) : Prop :=
  (preferences.map Prod.fst).Nodup ∧
  ∀ p ∈ preferences, (p.2.days.map Prod.fst).Nodup ∧ ∀ q ∈ p.2.days, q.1 ∈ DAYS

instance (preferences : Preferences) : Decidable (WFPrefs preferences) := by
  unfold WFPrefs
  infer_instance

/-- Total occurrences of activity `a` on day `d` in the assignments dict. -/
def gaCount (ga : GA) (d a : String) : Nat :=
  (ga.map (fun p => (p.2.filter (fun q => decide (q.1 = d ∧ q.2 = a))).length)).sum

/-- Membership of one (student, day, activity) triple in the assignments
dict. -/
def mem2 (ga : GA) (sid d a : String) : Prop :=
  ∃ das, (sid, das) ∈ ga ∧ (d, a) ∈ das

/-- The state after the high-priority tier only. -/
def highTierState (preferences : Preferences) : Option (GA × SLedger) :=
  (initActivityCapacity preferences).map (fun c0 =>
    assign_priority_group (tierFilter preferences "high") c0)

/-- The assignments of the high-priority tier only. -/
def highTierAssignments (preferences : Preferences) : Option GA :=
  (highTierState preferences).map (fun st => st.1)

/-- The merged assignments after the high and medium tiers. -/
def highMedAssignments (preferences : Preferences) : Option GA :=
  (highTierState preferences).map (fun st =>
    updateGA st.1 (assign_priority_group (tierFilter preferences "medium") st.2).1)

/-- A ranked choice triple shared by the concrete test inputs. -/
def abcPrefs : DayPrefs := ⟨"a", "b", "c"⟩

/-- Preference records for all four configured days. -/
def fullWeek : List (String × DayPrefs) :=
  [("mon", abcPrefs), ("tue", abcPrefs), ("wed", abcPrefs), ("thu", abcPrefs)]

/-- One high-priority student with a record for every day. -/
def prefsSolo : Preferences := [("S1", ⟨"high", fullWeek⟩)]

/-- Two high-priority students, the second with an id not starting with S. -/
def prefsWithT : Preferences :=
  [("S1", ⟨"high", fullWeek⟩), ("T1", ⟨"high", fullWeek⟩)]

/-- The second student has no record for tue, wed or thu. -/
def prefsMissingDay : Preferences :=
  [("S1", ⟨"high", fullWeek⟩), ("S2", ⟨"high", [("mon", abcPrefs)]⟩)]

/-- The assignments the model computes for `prefsSolo` (and `prefsWithT`). -/
def asgSolo : GA := [("S1", [("mon", "a"), ("tue", "a"), ("wed", "a"), ("thu", "a")])]

/-- The state after the high-tier 1st-preference pass on `prefsSolo`, at
which point (S1, mon) is committed. -/
def c1AfterFirstPass : Option (GA × SLedger) :=
  (initActivityCapacity prefsSolo).map
    (fun c0 => runLevelPass prefsSolo Level.first ([], c0))

/-- The 2nd-preference network built from the resulting capacities. -/
def c1SecondNetwork : Option (List Edge) :=
  c1AfterFirstPass.map (fun st => create_priority_network prefsSolo st.2 Level.second)

/-- A well-formed CSV row for student S1. -/
def rowGood1 : Row := ⟨some "S1", some "mon", some "a", some "b", some "c", some "high"⟩

/-- A malformed CSV row: the day column is missing. -/
def rowBad : Row := ⟨some "S2", none, some "a", some "b", some "c", none⟩

/-- A well-formed CSV row for student S3, after the malformed row. -/
def rowGood2 : Row := ⟨some "S3", some "mon", some "a", some "b", some "c", some "low"⟩

/-- An edge of the program's real graph, whose endpoints are networkx
node-name strings. -/
structure StrEdge where
  src : String
  dst : String
  capacity : Int
  weight : Int
deriving DecidableEq, Repr

/-- `f"{student_id}_{day}"` (line 131). -/
def nodeNameSD (sid day : String) : String := sid ++ "_" ++ day

/-- `f"{day}_{activity}"` (line 139). -/
def nodeNameAD (day act : String) : String := day ++ "_" ++ act

/-- `G.add_edge` on string-named nodes: replace an existing edge with the
same endpoint names, otherwise append. -/
def addEdgeStr (es : List StrEdge) (e : StrEdge) : List StrEdge :=
  if es.any (fun x => decide (x.src = e.src ∧ x.dst = e.dst)) then
    es.map (fun x => if x.src = e.src ∧ x.dst = e.dst then e else x)
  else
    es ++ [e]

/-- `create_priority_network` keyed, like the program, by node-name
strings: identical to the structural builder except that a student-day
name and an activity-day name that collide denote one merged node. -/
def create_priority_network_str (priority_students : Preferences)
    (remaining_capacity : SLedger) (pref_level : Level) : List StrEdge :=
  priority_students.foldl (fun es p =>
    p.2.days.foldl (fun es q =>
      let es1 := addEdgeStr es ⟨"source", nodeNameSD p.1 q.1, 1, 0⟩
      let activity := prefAt q.2 pref_level
      let es2 :=
        if remaining_capacity q.1 activity > 0 then
          addEdgeStr es1 ⟨nodeNameSD p.1 q.1, nodeNameAD q.1 activity, 1, 0⟩
        else es1
      addEdgeStr es2 ⟨nodeNameAD q.1 activity, "sink", remaining_capacity q.1 activity, 0⟩)
      es) []

/-- Total capacity of the edges leaving a string-named node. -/
def outCapacityStr (es : List StrEdge) (n : String) : Int :=
  ((es.filter (fun e => decide (e.src = n))).map (fun e => e.capacity)).sum

/-- Week of records whose Tuesday 1st choice is the activity named "wed". -/
def collideWeek : List (String × DayPrefs) :=
  [("mon", ⟨"a", "b", "c"⟩), ("tue", ⟨"wed", "b", "c"⟩),
   ("wed", ⟨"a", "b", "c"⟩), ("thu", ⟨"a", "b", "c"⟩)]

/-- Week of records for the student whose id is the day label "tue". -/
def tueStudentWeek : List (String × DayPrefs) :=
  [("mon", ⟨"a", "b", "c"⟩), ("tue", ⟨"a", "b", "c"⟩),
   ("wed", ⟨"q", "b", "c"⟩), ("thu", ⟨"a", "b", "c"⟩)]

/-- Sixteen S-prefixed students. -/
def collideSids : List String :=
  ["S01", "S02", "S03", "S04", "S05", "S06", "S07", "S08",
   "S09", "S10", "S11", "S12", "S13", "S14", "S15", "S16"]

/-- Sixteen S-students wanting activity "wed" on Tuesday, plus a student
literally named "tue" whose Wednesday record makes the node name
`f"{'tue'}_{'wed'}"` collide with the activity-day name
`f"{'tue'}_{'wed'}"`. -/
def prefsCollide : Preferences :=
  (collideSids.map (fun s => (s, ⟨"high", collideWeek⟩))) ++
    [("tue", ⟨"high", tueStudentWeek⟩)]

/-- The initial capacities of the colliding input. -/
def c2CollideCap : SLedger :=
  (initActivityCapacity prefsCollide).getD (fun _ _ => 0)

/-- The high-tier 1st-preference network of the colliding input, keyed by
the program's node-name strings. -/
def c2CollideNetwork : List StrEdge :=
  create_priority_network_str prefsCollide c2CollideCap Level.first

/-- The sixteen saturated student-day edges into the merged node that an
integral maximum flow compliant with spec 4.3 may return on
`c2CollideNetwork` (the merged node has out-capacity 16). -/
def collideEntries : List FlowEntry :=
  collideSids.map (fun s => ⟨s, "tue", "tue", "wed"⟩)

/-- The shape of every edge produced by `create_priority_network`. -/
def BuilderEdgeOK (students : Preferences) (c : SLedger) (lvl : Level) (e : Edge) : Prop :=
  (∃ s d, e = ⟨Node.source, Node.sd s d, 1, 0⟩) ∨
  (∃ s sdata d dp, (s, sdata) ∈ students ∧ (d, dp) ∈ sdata.days ∧
    e = ⟨Node.sd s d, Node.ad d (prefAt dp lvl), 1, 0⟩) ∨
  (∃ d a, e = ⟨Node.ad d a, Node.sink, c d a, 0⟩)

/-- Keys of an assignments dict and nodup-ness of its day lists. -/
def GAwf (ga : GA) : Prop :=
  (ga.map Prod.fst).Nodup ∧ ∀ p ∈ ga, (p.2.map Prod.fst).Nodup

/-- The triple (s, d, a) is one of student s's three ranked choices for
day d in the roster. -/
def RankedIn (students : Preferences) (s d a : String) : Prop :=
  ∃ sdata, (s, sdata) ∈ students ∧
    ∃ dp, (d, dp) ∈ sdata.days ∧ (a = dp.first ∨ a = dp.second ∨ a = dp.third)

theorem foldl_inv {α β : Type} (Inv : β → Prop) (f : β → α → β) :
    ∀ (l : List α) (b : β), Inv b → (∀ b' x, Inv b' → x ∈ l → Inv (f b' x)) →
      Inv (l.foldl f b) := by
  intro l
  induction l with
  | nil => intro b hb _; exact hb
  | cons x xs ih =>
    intro b hb hstep
    exact ih (f b x) (hstep b x hb (List.mem_cons_self x xs))
      (fun b' y hy hmem => hstep b' y hy (List.mem_cons_of_mem x hmem))

theorem alookup_append_some {β : Type} {l l2 : List (String × β)} {k : String} {v : β}
    (h : alookup l k = some v) : alookup (l ++ l2) k = some v := by
  induction l with
  | nil => simp [alookup] at h
  | cons p rest ih =>
    simp only [alookup, List.cons_append] at h ⊢
    split at h
    · simpa [*] using h
    · simp only [*, if_neg]
      exact ih h
      
theorem alookup_mem {β : Type} {l : List (String × β)} {k : String} {v : β}
    (h : alookup l k = some v) : (k, v) ∈ l := by
  induction l with
  | nil => simp [alookup] at h
  | cons p rest ih =>
    simp only [alookup] at h
    split at h
    · obtain rfl := Option.some_injective _ h
      simp_all [Prod.ext_iff]
    · exact List.mem_cons_of_mem _ (ih h)

theorem alookup_none_iff {β : Type} {l : List (String × β)} {k : String} :
    alookup l k = none ↔ k ∉ l.map Prod.fst := by
  induction l with
  | nil => simp [alookup]
  | cons p rest ih =>
    simp only [alookup, List.map_cons, List.mem_cons]
    split
    · simp_all
    · simp_all

theorem mem_alookup_of_nodup {β : Type} {l : List (String × β)} {k : String} {v : β}
    (hnd : (l.map Prod.fst).Nodup) (hmem : (k, v) ∈ l) : alookup l k = some v := by
  induction l with
  | nil => simp at hmem
  | cons p rest ih =>
    simp only [List.map_cons, List.nodup_cons] at hnd
    rcases List.mem_cons.mp hmem with heq | hmem2
    · subst heq
      simp [alookup]
    · have hk : k ≠ p.1 := by
        intro heq2
        exact hnd.1 (heq2 ▸ List.mem_map.mpr ⟨(k, v), hmem2, rfl⟩)
      simp only [alookup, if_neg hk]
      exact ih hnd.2 hmem2

theorem mem_addEdge {es : List Edge} {e x : Edge} (h : x ∈ addEdge es e) :
    x ∈ es ∨ x = e := by
  unfold addEdge at h
  split at h
  · rcases List.mem_map.mp h with ⟨y, hy, hxy⟩
    by_cases hc : y.src = e.src ∧ y.dst = e.dst
    · right
      rw [if_pos hc] at hxy
      exact hxy.symm
    · left
      rw [if_neg hc] at hxy
      exact hxy ▸ hy
  · rcases List.mem_append.mp h with hy | hy
    · exact Or.inl hy
    · exact Or.inr (List.mem_singleton.mp hy)

theorem addEdge_preserve {es : List Edge} {e : Edge} {P : Edge → Prop}
    (hes : ∀ x ∈ es, P x) (he : P e) : ∀ x ∈ addEdge es e, P x := by
  intro x hx
  rcases mem_addEdge hx with hmem | rfl
  · exact hes x hmem
  · exact he

theorem builder_edges_ok (students : Preferences) (c : SLedger) (lvl : Level) :
    ∀ e ∈ create_priority_network students c lvl, BuilderEdgeOK students c lvl e := by
  unfold create_priority_network
  apply foldl_inv (fun es => ∀ e ∈ es, BuilderEdgeOK students c lvl e)
  · intro e he
    simp at he
  · intro es p hes hp
    apply foldl_inv (fun es => ∀ e ∈ es, BuilderEdgeOK students c lvl e)
    · exact hes
    · intro es' q hes' hq
      simp only []
      apply addEdge_preserve
      · intro x hx
        by_cases hcap : c q.1 (prefAt q.2 lvl) > 0
        · rw [if_pos hcap] at hx
          refine addEdge_preserve (addEdge_preserve hes' ?_) ?_ x hx
          · exact Or.inl ⟨p.1, q.1, rfl⟩
          · refine Or.inr (Or.inl ⟨p.1, p.2, q.1, q.2, ?_, ?_, rfl⟩)
            · simpa using hp
            · simpa using hq
        · rw [if_neg hcap] at hx
          refine addEdge_preserve hes' ?_ x hx
          exact Or.inl ⟨p.1, q.1, rfl⟩
      · exact Or.inr (Or.inr ⟨q.1, prefAt q.2 lvl, rfl⟩)

theorem sinkCap_builder (students : Preferences) (c : SLedger) (lvl : Level)
    (d a : String) :
    sinkCapOf (create_priority_network students c lvl) d a = c d a ∨
    sinkCapOf (create_priority_network students c lvl) d a = 0 := by
  rcases hfind : (create_priority_network students c lvl).find?
      (fun e => decide (e.src = Node.ad d a ∧ e.dst = Node.sink)) with _ | e
  · right
    unfold sinkCapOf
    rw [hfind]
  · have hmem := List.mem_of_find?_eq_some hfind
    have hpred := List.find?_some hfind
    simp only [decide_eq_true_eq] at hpred
    rcases builder_edges_ok students c lvl e hmem with ⟨s, dd, rfl⟩ | ⟨s, sdata, dd, dp, _, _, rfl⟩ | ⟨dd, aa, rfl⟩
    · simp at hpred
    · simp at hpred
    · obtain ⟨h1, -⟩ := hpred
      obtain ⟨rfl, rfl⟩ := Node.ad.inj h1
      left
      unfold sinkCapOf
      rw [hfind]

theorem countToAd_append (l : List FlowEntry) (x : FlowEntry) (d a : String) :
    countToAd (l ++ [x]) d a =
      countToAd l d a + (if x.adDay = d ∧ x.act = a then 1 else 0) := by
  unfold countToAd
  rw [List.filter_append, List.length_append]
  congr 1
  by_cases hx : x.adDay = d ∧ x.act = a
  · simp [hx]
  · simp [hx]

theorem countSd_append (l : List FlowEntry) (x : FlowEntry) (d a : String) :
    countSd (l ++ [x]) d a =
      countSd l d a + (if x.day = d ∧ x.act = a then 1 else 0) := by
  unfold countSd
  rw [List.filter_append, List.length_append]
  congr 1
  by_cases hx : x.day = d ∧ x.act = a
  · simp [hx]
  · simp [hx]

theorem solveAux_bound (es0 : List Edge) (d a : String) :
    ∀ (l : List Edge) (acc : List FlowEntry),
      countToAd acc d a ≤ (sinkCapOf es0 d a).toNat →
      countToAd (solveMaxFlowAux es0 l acc) d a ≤ (sinkCapOf es0 d a).toNat := by
  intro l
  induction l with
  | nil => intro acc h; simpa [solveMaxFlowAux] using h
  | cons e rest ih =>
    intro acc h
    rcases e with ⟨src, dst, cap, w⟩
    cases src <;> cases dst <;> simp only [solveMaxFlowAux] <;> try exact ih acc h
    rename_i s dd dd2 aa2
    split
    · rename_i hcond
      apply ih
      rw [countToAd_append]
      by_cases hsame : dd2 = d ∧ aa2 = a
      · rw [if_pos (show (⟨s, dd, dd2, aa2⟩ : FlowEntry).adDay = d ∧
            (⟨s, dd, dd2, aa2⟩ : FlowEntry).act = a from ⟨hsame.1, hsame.2⟩)]
        have hlt := hcond.2.1
        rw [hsame.1, hsame.2] at hlt
        omega
      · rw [if_neg hsame]
        omega
    · exact ih acc h

theorem solveAux_src (es0 : List Edge) :
    ∀ (l : List Edge) (acc : List FlowEntry) (x : FlowEntry),
      x ∈ solveMaxFlowAux es0 l acc →
      x ∈ acc ∨ ∃ e ∈ l, e.src = Node.sd x.sid x.day ∧ e.dst = Node.ad x.adDay x.act := by
  intro l
  induction l with
  | nil =>
    intro acc x hx
    exact Or.inl (by simpa [solveMaxFlowAux] using hx)
  | cons e rest ih =>
    intro acc x hx
    have hlift : x ∈ solveMaxFlowAux es0 rest acc →
        x ∈ acc ∨ ∃ e2 ∈ e :: rest,
          e2.src = Node.sd x.sid x.day ∧ e2.dst = Node.ad x.adDay x.act := by
      intro hx2
      rcases ih acc x hx2 with h | ⟨e2, he2, hp⟩
      · exact Or.inl h
      · exact Or.inr ⟨e2, List.mem_cons_of_mem _ he2, hp⟩
    rcases e with ⟨src, dst, cap, w⟩
    cases src <;> cases dst <;> simp only [solveMaxFlowAux] at hx <;> try exact hlift hx
    rename_i s dd dd2 aa2
    split at hx
    · rcases ih _ x hx with h | ⟨e2, he2, hp⟩
      · rcases List.mem_append.mp h with h2 | h2
        · exact Or.inl h2
        · obtain rfl := List.mem_singleton.mp h2
          exact Or.inr ⟨⟨Node.sd s dd, Node.ad dd2 aa2, cap, w⟩,
            List.mem_cons_self _ _, rfl, rfl⟩
      · exact Or.inr ⟨e2, List.mem_cons_of_mem _ he2, hp⟩
    · exact hlift hx

theorem solve_builder_entry (students : Preferences) (c : SLedger) (lvl : Level)
    {x : FlowEntry} (hx : x ∈ solveMaxFlow (create_priority_network students c lvl)) :
    x.day = x.adDay ∧ ∃ sdata dp, (x.sid, sdata) ∈ students ∧
      (x.day, dp) ∈ sdata.days ∧ x.act = prefAt dp lvl := by
  rcases solveAux_src _ _ _ _ hx with h | ⟨e, he, hsrc, hdst⟩
  · simp at h
  · rcases builder_edges_ok students c lvl e he with
      ⟨s, dd, rfl⟩ | ⟨s, sdata, dd, dp, hmem, hdp, rfl⟩ | ⟨dd, aa, rfl⟩
    · simp at hsrc
    · simp only [] at hsrc hdst
      obtain ⟨rfl, rfl⟩ := Node.sd.inj hsrc
      obtain ⟨h1, h2⟩ := Node.ad.inj hdst
      exact ⟨h1, sdata, dp, hmem, hdp, h2.symm⟩
    · simp at hsrc

theorem countSd_cons (e : FlowEntry) (l : List FlowEntry) (d a : String) :
    countSd (e :: l) d a = countSd l d a + (if e.day = d ∧ e.act = a then 1 else 0) := by
  unfold countSd
  rw [List.filter_cons]
  by_cases h : e.day = d ∧ e.act = a
  · simp [h, Nat.add_comm]
  · simp [h]

theorem countToAd_cons (e : FlowEntry) (l : List FlowEntry) (d a : String) :
    countToAd (e :: l) d a = countToAd l d a + (if e.adDay = d ∧ e.act = a then 1 else 0) := by
  unfold countToAd
  rw [List.filter_cons]
  by_cases h : e.adDay = d ∧ e.act = a
  · simp [h, Nat.add_comm]
  · simp [h]

theorem countSd_eq_countToAd {l : List FlowEntry} (h : ∀ x ∈ l, x.day = x.adDay)
    (d a : String) : countSd l d a = countToAd l d a := by
  induction l with
  | nil => rfl
  | cons e rest ih =>
    have he := h e (List.mem_cons_self e rest)
    rw [countSd_cons, countToAd_cons, ih (fun x hx => h x (List.mem_cons_of_mem e hx)), he]

theorem gaCount_nil (d a : String) : gaCount [] d a = 0 := rfl

theorem gaCount_append (g1 g2 : GA) (d a : String) :
    gaCount (g1 ++ g2) d a = gaCount g1 d a + gaCount g2 d a := by
  unfold gaCount
  rw [List.map_append, List.sum_append]

theorem gaCount_cons (p : String × List (String × String)) (rest : GA) (d a : String) :
    gaCount (p :: rest) d a =
      (p.2.filter (fun q => decide (q.1 = d ∧ q.2 = a))).length + gaCount rest d a := by
  rfl

theorem gaCount_insertGA (ga : GA) (sid d a d' a' : String) :
    gaCount (insertGA ga sid d a) d' a' =
      gaCount ga d' a' + (if d = d' ∧ a = a' then 1 else 0) := by
  induction ga with
  | nil =>
    simp only [insertGA, gaCount_cons, gaCount_nil]
    rw [List.filter_cons]
    by_cases h : d = d' ∧ a = a'
    · simp [h]
    · simp [h]
  | cons p rest ih =>
    rcases p with ⟨s, das⟩
    by_cases hs : s = sid
    · simp only [insertGA, if_pos hs, gaCount_cons]
      rw [List.filter_append, List.length_append, List.filter_cons]
      by_cases h : d = d' ∧ a = a'
      · simp [h]
        omega
      · simp [h]
    · simp only [insertGA, if_neg hs, gaCount_cons, ih]
      omega

theorem lookup2_cons (s : String) (das : List (String × String)) (rest : GA)
    (s0 d0 : String) :
    lookup2 ((s, das) :: rest) s0 d0 =
      if s0 = s then alookup das d0 else lookup2 rest s0 d0 := by
  by_cases h : s0 = s
  · simp [lookup2, alookup, h]
  · simp [lookup2, alookup, h]

theorem lookup2_insertGA_preserve {ga : GA} {s0 d0 a0 : String}
    (h : lookup2 ga s0 d0 = some a0) (sid d a : String) :
    lookup2 (insertGA ga sid d a) s0 d0 = some a0 := by
  induction ga with
  | nil => simp [lookup2, alookup] at h
  | cons p rest ih =>
    rcases p with ⟨s, das⟩
    rw [lookup2_cons] at h
    by_cases hsz : s = sid
    · simp only [insertGA, if_pos hsz]
      rw [lookup2_cons]
      by_cases h0 : s0 = s
      · rw [if_pos h0]
        rw [if_pos h0] at h
        exact alookup_append_some h
      · rw [if_neg h0]
        rw [if_neg h0] at h
        exact h
    · simp only [insertGA, if_neg hsz]
      rw [lookup2_cons]
      by_cases h0 : s0 = s
      · rw [if_pos h0]
        rw [if_pos h0] at h
        exact h
      · rw [if_neg h0]
        rw [if_neg h0] at h
        exact ih h

theorem mem2_cons {p : String × List (String × String)} {rest : GA} {s0 d0 a0 : String} :
    mem2 (p :: rest) s0 d0 a0 ↔
      (s0 = p.1 ∧ (d0, a0) ∈ p.2) ∨ mem2 rest s0 d0 a0 := by
  unfold mem2
  constructor
  · rintro ⟨das, hmem, hin⟩
    rcases List.mem_cons.mp hmem with heq | htail
    · left
      have h1 : s0 = p.1 := by rw [← heq]
      have h2 : das = p.2 := by rw [← heq]
      exact ⟨h1, h2 ▸ hin⟩
    · exact Or.inr ⟨das, htail, hin⟩
  · rintro (⟨rfl, hin⟩ | ⟨das, htail, hin⟩)
    · exact ⟨p.2, List.mem_cons_self _ _, hin⟩
    · exact ⟨das, List.mem_cons_of_mem _ htail, hin⟩

theorem mem2_insertGA {ga : GA} {sid d a s0 d0 a0 : String}
    (h : mem2 (insertGA ga sid d a) s0 d0 a0) :
    mem2 ga s0 d0 a0 ∨ (s0 = sid ∧ d0 = d ∧ a0 = a) := by
  induction ga with
  | nil =>
    simp only [insertGA] at h
    rcases mem2_cons.mp h with ⟨h1, h2⟩ | h2
    · rcases List.mem_singleton.mp h2 with h3
      right
      exact ⟨h1, congrArg Prod.fst h3, congrArg Prod.snd h3⟩
    · rcases h2 with ⟨das, hmem, _⟩
      simp at hmem
  | cons p rest ih =>
    rcases p with ⟨s, das⟩
    by_cases hsz : s = sid
    · simp only [insertGA, if_pos hsz] at h
      rcases mem2_cons.mp h with ⟨h1, h2⟩ | h2
      · rcases List.mem_append.mp h2 with h3 | h3
        · exact Or.inl (mem2_cons.mpr (Or.inl ⟨h1, h3⟩))
        · rcases List.mem_singleton.mp h3 with h4
          right
          exact ⟨hsz ▸ h1, congrArg Prod.fst h4, congrArg Prod.snd h4⟩
      · exact Or.inl (mem2_cons.mpr (Or.inr h2))
    · simp only [insertGA, if_neg hsz] at h
      rcases mem2_cons.mp h with ⟨h1, h2⟩ | h2
      · exact Or.inl (mem2_cons.mpr (Or.inl ⟨h1, h2⟩))
      · rcases ih h2 with h3 | h3
        · exact Or.inl (mem2_cons.mpr (Or.inr h3))
        · exact Or.inr h3

theorem keys_insertGA {ga : GA} {sid d a k : String}
    (h : k ∈ (insertGA ga sid d a).map Prod.fst) :
    k ∈ ga.map Prod.fst ∨ k = sid := by
  induction ga with
  | nil =>
    simp only [insertGA, List.map_cons, List.map_nil] at h
    right
    simpa using h
  | cons p rest ih =>
    rcases p with ⟨s, das⟩
    by_cases hsz : s = sid
    · simp only [insertGA, if_pos hsz, List.map_cons] at h
      rcases List.mem_cons.mp h with h1 | h1
      · exact Or.inl (by simp [h1])
      · exact Or.inl (by simp [h1])
    · simp only [insertGA, if_neg hsz, List.map_cons] at h
      rcases List.mem_cons.mp h with h1 | h1
      · exact Or.inl (by simp [h1])
      · rcases ih h1 with h2 | h2
        · exact Or.inl (by simp [h2])
        · exact Or.inr h2

theorem nodup_concat {α : Type} {l : List α} {x : α} (h1 : l.Nodup) (h2 : x ∉ l) :
    (l ++ [x]).Nodup := by
  induction l with
  | nil => simp
  | cons y ys ih =>
    rw [List.nodup_cons] at h1
    rw [List.cons_append, List.nodup_cons]
    constructor
    · rw [List.mem_append]
      rintro (hy | hy)
      · exact h1.1 hy
      · rw [List.mem_singleton] at hy
        exact h2 (hy ▸ List.mem_cons_self y ys)
    · exact ih h1.2 (fun hx => h2 (List.mem_cons_of_mem y hx))

theorem gawf_nil : GAwf [] := by
  constructor
  · simp
  · intro p hp
    simp at hp

theorem gawf_insertGA {ga : GA} {sid d a : String} (hwf : GAwf ga)
    (hnone : lookup2 ga sid d = none) : GAwf (insertGA ga sid d a) := by
  induction ga with
  | nil =>
    constructor
    · simp [insertGA]
    · intro p hp
      simp only [insertGA] at hp
      rcases List.mem_singleton.mp hp with rfl
      simp
  | cons p rest ih =>
    rcases p with ⟨s, das⟩
    obtain ⟨hkeys, hinner⟩ := hwf
    rw [List.map_cons, List.nodup_cons] at hkeys
    rw [lookup2_cons] at hnone
    by_cases hsz : s = sid
    · have hs0 : sid = s := hsz.symm
      rw [if_pos hs0] at hnone
      simp only [insertGA, if_pos hsz]
      constructor
      · rw [List.map_cons, List.nodup_cons]
        exact hkeys
      · intro q hq
        rcases List.mem_cons.mp hq with rfl | hq2
        · have hd : d ∉ das.map Prod.fst := alookup_none_iff.mp hnone
          have hdas : (das.map Prod.fst).Nodup :=
            (hinner (s, das) (List.mem_cons_self _ _))
          simp only [List.map_append]
          exact nodup_concat hdas hd
        · exact hinner q (List.mem_cons_of_mem _ hq2)
    · have hs0 : ¬ sid = s := fun hh => hsz hh.symm
      rw [if_neg hs0] at hnone
      have ihr := ih ⟨hkeys.2, fun q hq => hinner q (List.mem_cons_of_mem _ hq)⟩ hnone
      simp only [insertGA, if_neg hsz]
      constructor
      · rw [List.map_cons, List.nodup_cons]
        refine ⟨?_, ihr.1⟩
        intro hmem
        rcases keys_insertGA hmem with h2 | h2
        · exact hkeys.1 h2
        · exact hsz h2
      · intro q hq
        rcases List.mem_cons.mp hq with rfl | hq2
        · exact hinner (s, das) (List.mem_cons_self _ _)
        · exact ihr.2 q hq2

theorem commitCapacity_at (c : SLedger) (dd aa d a : String) :
    commitCapacity c dd aa d a = if d = dd ∧ a = aa then c d a - 1 else c d a := rfl

theorem pf_conservation (es : List FlowEntry) :
    ∀ (ga : GA) (c : SLedger) (d a : String),
      (processFlow es ga c).2 d a + (gaCount (processFlow es ga c).1 d a : Int) =
        c d a + (gaCount ga d a : Int) := by
  induction es with
  | nil => intro ga c d a; rfl
  | cons e rest ih =>
    intro ga c d a
    simp only [processFlow]
    split
    · rw [ih]
      rw [commitCapacity_at, gaCount_insertGA]
      by_cases h1 : d = e.day
      · subst h1
        by_cases h2 : a = e.act
        · subst h2
          rw [if_pos ⟨rfl, rfl⟩, if_pos ⟨rfl, rfl⟩]
          push_cast
          ring
        · rw [if_neg (fun hc => h2 hc.2), if_neg (fun hc => h2 hc.2.symm)]
          push_cast
          ring
      · rw [if_neg (fun hc => h1 hc.1), if_neg (fun hc => h1 hc.1.symm)]
        push_cast
        ring
    · exact ih ga c d a

theorem pf_count_le (es : List FlowEntry) :
    ∀ (ga : GA) (c : SLedger) (d a : String),
      gaCount (processFlow es ga c).1 d a ≤ gaCount ga d a + countSd es d a := by
  induction es with
  | nil => intro ga c d a; simp [processFlow]
  | cons e rest ih =>
    intro ga c d a
    simp only [processFlow]
    rw [countSd_cons]
    split
    · have := ih (insertGA ga e.sid e.day e.act) (commitCapacity c e.day e.act) d a
      rw [gaCount_insertGA] at this
      by_cases h1 : e.day = d ∧ e.act = a
      · rw [if_pos h1]
        rw [if_pos h1] at this
        omega
      · rw [if_neg h1]
        rw [if_neg h1] at this
        omega
    · have := ih ga c d a
      omega

theorem pf_persist (es : List FlowEntry) :
    ∀ (ga : GA) (c : SLedger) (s0 d0 a0 : String),
      lookup2 ga s0 d0 = some a0 →
      lookup2 (processFlow es ga c).1 s0 d0 = some a0 := by
  induction es with
  | nil => intro ga c s0 d0 a0 h; exact h
  | cons e rest ih =>
    intro ga c s0 d0 a0 h
    simp only [processFlow]
    split
    · exact ih _ _ _ _ _ (lookup2_insertGA_preserve h _ _ _)
    · exact ih _ _ _ _ _ h

theorem pf_mem2 (es : List FlowEntry) :
    ∀ (ga : GA) (c : SLedger) (s0 d0 a0 : String),
      mem2 (processFlow es ga c).1 s0 d0 a0 →
      mem2 ga s0 d0 a0 ∨ ∃ e ∈ es, e.sid = s0 ∧ e.day = d0 ∧ e.act = a0 := by
  induction es with
  | nil => intro ga c s0 d0 a0 h; exact Or.inl h
  | cons e rest ih =>
    intro ga c s0 d0 a0 h
    simp only [processFlow] at h
    split at h
    · rcases ih _ _ _ _ _ h with h2 | ⟨e2, he2, hp⟩
      · rcases mem2_insertGA h2 with h3 | ⟨rfl, rfl, rfl⟩
        · exact Or.inl h3
        · exact Or.inr ⟨e, List.mem_cons_self _ _, rfl, rfl, rfl⟩
      · exact Or.inr ⟨e2, List.mem_cons_of_mem _ he2, hp⟩
    · rcases ih _ _ _ _ _ h with h2 | ⟨e2, he2, hp⟩
      · exact Or.inl h2
      · exact Or.inr ⟨e2, List.mem_cons_of_mem _ he2, hp⟩

theorem pf_keys (es : List FlowEntry) :
    ∀ (ga : GA) (c : SLedger) (k : String),
      k ∈ (processFlow es ga c).1.map Prod.fst →
      k ∈ ga.map Prod.fst ∨ ((∃ e ∈ es, e.sid = k) ∧ startsWithS k = true) := by
  induction es with
  | nil => intro ga c k h; exact Or.inl h
  | cons e rest ih =>
    intro ga c k h
    simp only [processFlow] at h
    split at h
    · rename_i hcond
      rcases ih _ _ _ h with h2 | ⟨⟨e2, he2, hp⟩, hS⟩
      · rcases keys_insertGA h2 with h3 | rfl
        · exact Or.inl h3
        · exact Or.inr ⟨⟨e, List.mem_cons_self _ _, rfl⟩, hcond.1⟩
      · exact Or.inr ⟨⟨e2, List.mem_cons_of_mem _ he2, hp⟩, hS⟩
    · rcases ih _ _ _ h with h2 | ⟨⟨e2, he2, hp⟩, hS⟩
      · exact Or.inl h2
      · exact Or.inr ⟨⟨e2, List.mem_cons_of_mem _ he2, hp⟩, hS⟩

theorem pf_wf (es : List FlowEntry) :
    ∀ (ga : GA) (c : SLedger), GAwf ga → GAwf (processFlow es ga c).1 := by
  induction es with
  | nil => intro ga c h; exact h
  | cons e rest ih =>
    intro ga c h
    simp only [processFlow]
    split
    · rename_i hcond
      exact ih _ _ (gawf_insertGA h hcond.2)
    · exact ih _ _ h

theorem prefAt_mem (dp : DayPrefs) (lvl : Level) :
    prefAt dp lvl = dp.first ∨ prefAt dp lvl = dp.second ∨ prefAt dp lvl = dp.third := by
  cases lvl <;> simp [prefAt]

theorem mem2_nil (s d a : String) : ¬ mem2 [] s d a := by
  rintro ⟨das, h, _⟩
  simp at h

theorem solve_bound (es : List Edge) (d a : String) :
    countToAd (solveMaxFlow es) d a ≤ (sinkCapOf es d a).toNat := by
  unfold solveMaxFlow
  exact solveAux_bound es d a es [] (Nat.zero_le _)

theorem pass_nonneg (students : Preferences) (lvl : Level) (st : GA × SLedger)
    (h0 : ∀ d a, 0 ≤ st.2 d a) : ∀ d a, 0 ≤ (runLevelPass students lvl st).2 d a := by
  intro d a
  simp only [runLevelPass]
  have hc := pf_conservation (solveMaxFlow (create_priority_network students st.2 lvl))
    st.1 st.2 d a
  have hle := pf_count_le (solveMaxFlow (create_priority_network students st.2 lvl))
    st.1 st.2 d a
  have hday : ∀ x ∈ solveMaxFlow (create_priority_network students st.2 lvl),
      x.day = x.adDay := fun x hx => (solve_builder_entry students st.2 lvl hx).1
  have heq := countSd_eq_countToAd hday d a
  have hbound := solve_bound (create_priority_network students st.2 lvl) d a
  have hsink := sinkCap_builder students st.2 lvl d a
  have h00 := h0 d a
  rcases hsink with hs | hs
  · rw [hs] at hbound
    omega
  · rw [hs] at hbound
    omega

theorem pass_conservation (students : Preferences) (lvl : Level) (st : GA × SLedger)
    (d a : String) :
    (runLevelPass students lvl st).2 d a +
        (gaCount (runLevelPass students lvl st).1 d a : Int) =
      st.2 d a + (gaCount st.1 d a : Int) := by
  simp only [runLevelPass]
  exact pf_conservation _ _ _ _ _

theorem pass_persist (students : Preferences) (lvl : Level) (st : GA × SLedger)
    {s0 d0 a0 : String} (h : lookup2 st.1 s0 d0 = some a0) :
    lookup2 (runLevelPass students lvl st).1 s0 d0 = some a0 := by
  simp only [runLevelPass]
  exact pf_persist _ _ _ _ _ _ h

theorem pass_mem2 (students : Preferences) (lvl : Level) (st : GA × SLedger)
    {s0 d0 a0 : String} (h : mem2 (runLevelPass students lvl st).1 s0 d0 a0) :
    mem2 st.1 s0 d0 a0 ∨ RankedIn students s0 d0 a0 := by
  simp only [runLevelPass] at h
  rcases pf_mem2 _ _ _ _ _ _ h with h2 | ⟨e, he, hsid, hday, hact⟩
  · exact Or.inl h2
  · obtain ⟨hdd, sdata, dp, hm, hdp, hpa⟩ := solve_builder_entry students st.2 lvl he
    right
    refine ⟨sdata, hsid ▸ hm, dp, hday ▸ hdp, ?_⟩
    rw [← hact, hpa]
    exact prefAt_mem dp lvl

theorem pass_keys (students : Preferences) (lvl : Level) (st : GA × SLedger)
    {k : String} (h : k ∈ (runLevelPass students lvl st).1.map Prod.fst) :
    k ∈ st.1.map Prod.fst ∨
      (k ∈ students.map Prod.fst ∧ startsWithS k = true) := by
  simp only [runLevelPass] at h
  rcases pf_keys _ _ _ _ h with h2 | ⟨⟨e, he, hsid⟩, hS⟩
  · exact Or.inl h2
  · obtain ⟨-, sdata, dp, hm, -, -⟩ := solve_builder_entry students st.2 lvl he
    right
    exact ⟨List.mem_map.mpr ⟨(e.sid, sdata), hm, hsid⟩, hS⟩

theorem pass_wf (students : Preferences) (lvl : Level) (st : GA × SLedger)
    (h : GAwf st.1) : GAwf (runLevelPass students lvl st).1 := by
  simp only [runLevelPass]
  exact pf_wf _ _ _ h

theorem apg_eq (students : Preferences) (c : SLedger) :
    assign_priority_group students c =
      runLevelPass students Level.third
        (runLevelPass students Level.second
          (runLevelPass students Level.first ([], c))) := rfl

theorem apg_nonneg (students : Preferences) (c : SLedger)
    (h0 : ∀ d a, 0 ≤ c d a) :
    ∀ d a, 0 ≤ (assign_priority_group students c).2 d a := by
  rw [apg_eq]
  exact pass_nonneg students Level.third _
    (pass_nonneg students Level.second _
      (pass_nonneg students Level.first ([], c) h0))

theorem apg_conservation (students : Preferences) (c : SLedger) (d a : String) :
    (assign_priority_group students c).2 d a +
        (gaCount (assign_priority_group students c).1 d a : Int) = c d a := by
  rw [apg_eq]
  have h1 : (runLevelPass students Level.first ([], c)).2 d a +
      (gaCount (runLevelPass students Level.first ([], c)).1 d a : Int) = c d a := by
    simpa [gaCount_nil] using pass_conservation students Level.first ([], c) d a
  have h2 := pass_conservation students Level.second
    (runLevelPass students Level.first ([], c)) d a
  have h3 := pass_conservation students Level.third
    (runLevelPass students Level.second (runLevelPass students Level.first ([], c))) d a
  omega

theorem apg_mem2 (students : Preferences) (c : SLedger) {s0 d0 a0 : String}
    (h : mem2 (assign_priority_group students c).1 s0 d0 a0) :
    RankedIn students s0 d0 a0 := by
  rw [apg_eq] at h
  rcases pass_mem2 students Level.third _ h with h2 | hr
  · rcases pass_mem2 students Level.second _ h2 with h3 | hr
    · rcases pass_mem2 students Level.first _ h3 with h4 | hr
      · exact absurd h4 (mem2_nil s0 d0 a0)
      · exact hr
    · exact hr
  · exact hr

theorem apg_keys (students : Preferences) (c : SLedger) {k : String}
    (h : k ∈ (assign_priority_group students c).1.map Prod.fst) :
    k ∈ students.map Prod.fst ∧ startsWithS k = true := by
  rw [apg_eq] at h
  rcases pass_keys students Level.third _ h with h2 | hr
  · rcases pass_keys students Level.second _ h2 with h3 | hr
    · rcases pass_keys students Level.first _ h3 with h4 | hr
      · simp at h4
      · exact hr
    · exact hr
  · exact hr

theorem apg_wf (students : Preferences) (c : SLedger) :
    GAwf (assign_priority_group students c).1 := by
  rw [apg_eq]
  exact pass_wf students Level.third _
    (pass_wf students Level.second _
      (pass_wf students Level.first ([], c) gawf_nil))

theorem levels_persist (students : Preferences) :
    ∀ (lvls : List Level) (st : GA × SLedger) (s0 d0 a0 : String),
      lookup2 st.1 s0 d0 = some a0 →
      lookup2 ((lvls.foldl (fun st2 lvl => runLevelPass students lvl st2) st)).1 s0 d0 =
        some a0 := by
  intro lvls
  induction lvls with
  | nil => intro st s0 d0 a0 h; exact h
  | cons lvl rest ih =>
    intro st s0 d0 a0 h
    exact ih _ _ _ _ (pass_persist students lvl st h)

theorem setKeyGA_mem {ga : GA} {sid : String} {das : List (String × String)}
    {p : String × List (String × String)} (h : p ∈ setKeyGA ga sid das) :
    p ∈ ga ∨ p = (sid, das) := by
  unfold setKeyGA at h
  split at h
  · rcases List.mem_map.mp h with ⟨q, hq, hpq⟩
    by_cases hc : q.1 = sid
    · rw [if_pos hc] at hpq
      exact Or.inr hpq.symm
    · rw [if_neg hc] at hpq
      exact Or.inl (hpq ▸ hq)
  · rcases List.mem_append.mp h with h2 | h2
    · exact Or.inl h2
    · exact Or.inr (List.mem_singleton.mp h2)

theorem updateGA_mem {ga new : GA} {p : String × List (String × String)}
    (h : p ∈ updateGA ga new) : p ∈ ga ∨ p ∈ new := by
  unfold updateGA at h
  have := foldl_inv (fun acc => ∀ q ∈ acc, q ∈ ga ∨ q ∈ new)
    (fun acc q => setKeyGA acc q.1 q.2) new ga (fun q hq => Or.inl hq) ?_ p h
  · exact this
  · intro acc x hacc hx q hq
    rcases setKeyGA_mem hq with h2 | h2
    · exact hacc q h2
    · right
      rw [h2]
      exact hx

theorem updateGA_disjoint : ∀ {new ga : GA},
    (∀ k ∈ new.map Prod.fst, k ∉ ga.map Prod.fst) →
    (new.map Prod.fst).Nodup → updateGA ga new = ga ++ new := by
  intro new
  induction new with
  | nil =>
    intro ga _ _
    simp [updateGA]
  | cons p rest ih =>
    intro ga hdisj hnd
    have hp : p.1 ∉ ga.map Prod.fst :=
      hdisj p.1 (by simp)
    have hstep : setKeyGA ga p.1 p.2 = ga ++ [p] := by
      unfold setKeyGA
      have : alookup ga p.1 = none := alookup_none_iff.mpr hp
      rw [this]
      simp
    have hgoal : updateGA ga (p :: rest) = updateGA (ga ++ [p]) rest := by
      unfold updateGA
      rw [List.foldl_cons, hstep]
    rw [hgoal]
    rw [List.map_cons, List.nodup_cons] at hnd
    have hdisj2 : ∀ k ∈ rest.map Prod.fst, k ∉ (ga ++ [p]).map Prod.fst := by
      intro k hk
      rw [List.map_append, List.mem_append]
      rintro (h2 | h2)
      · exact hdisj k (by simp [hk]) h2
      · rw [List.map_singleton, List.mem_singleton] at h2
        exact hnd.1 (h2 ▸ hk)
    rw [ih hdisj2 hnd.2, List.append_assoc, List.singleton_append]

theorem lookup2_append_left {ga ga2 : GA} {s d a : String}
    (h : lookup2 ga s d = some a) : lookup2 (ga ++ ga2) s d = some a := by
  unfold lookup2 at h ⊢
  rcases halo : alookup ga s with _ | das
  · rw [halo] at h
    simp at h
  · rw [halo] at h
    rw [alookup_append_some halo]
    exact h

theorem tierFilter_mem {prefs : Preferences} {w : String}
    {p : String × StudentData} (h : p ∈ tierFilter prefs w) :
    p ∈ prefs ∧ p.2.weight = w := by
  unfold tierFilter at h
  rw [List.mem_filter] at h
  exact ⟨h.1, by simpa using h.2⟩

theorem nodup_keys_unique {β : Type} {l : List (String × β)}
    (hnd : (l.map Prod.fst).Nodup) {k : String} {v1 v2 : β}
    (h1 : (k, v1) ∈ l) (h2 : (k, v2) ∈ l) : v1 = v2 := by
  have e1 := mem_alookup_of_nodup hnd h1
  have e2 := mem_alookup_of_nodup hnd h2
  rw [e1] at e2
  exact Option.some_injective _ e2

theorem tier_key_weight {prefs : Preferences} {w k : String}
    (h : k ∈ (tierFilter prefs w).map Prod.fst) :
    ∃ sdata, (k, sdata) ∈ prefs ∧ sdata.weight = w := by
  rcases List.mem_map.mp h with ⟨p, hp, hpk⟩
  obtain ⟨hmem, hw⟩ := tierFilter_mem hp
  exact ⟨p.2, by rw [← hpk]; simpa using hmem, hw⟩

theorem weights_clash {prefs : Preferences} (hnd : (prefs.map Prod.fst).Nodup)
    {k w1 w2 : String} (hne : w1 ≠ w2)
    (h1 : ∃ sdata, (k, sdata) ∈ prefs ∧ sdata.weight = w1)
    (h2 : ∃ sdata, (k, sdata) ∈ prefs ∧ sdata.weight = w2) : False := by
  obtain ⟨s1, hm1, hw1⟩ := h1
  obtain ⟨s2, hm2, hw2⟩ := h2
  have := nodup_keys_unique hnd hm1 hm2
  rw [this] at hw1
  rw [hw1] at hw2
  exact hne hw2

theorem initDay_vals : ∀ (prefs : Preferences) (day : String) (c c' : SLedger),
    (∀ d a, c d a = 15 ∨ c d a = 0) → initDayCapacity prefs day c = some c' →
    ∀ d a, c' d a = 15 ∨ c' d a = 0 := by
  intro prefs
  induction prefs with
  | nil =>
    intro day c c' h0 hinit d a
    simp only [initDayCapacity] at hinit
    obtain rfl := Option.some_injective _ hinit
    exact h0 d a
  | cons p rest ih =>
    intro day c c' h0 hinit d a
    simp only [initDayCapacity] at hinit
    rcases halo : alookup p.2.days day with _ | dp
    · rw [halo] at hinit
      simp at hinit
    · rw [halo] at hinit
      refine ih day _ c' ?_ hinit d a
      intro d2 a2
      dsimp only
      split
      · exact Or.inl rfl
      · exact h0 d2 a2

theorem init_vals {prefs : Preferences} {c0 : SLedger}
    (hinit : initActivityCapacity prefs = some c0) :
    ∀ d a, c0 d a = 15 ∨ c0 d a = 0 := by
  unfold initActivityCapacity at hinit
  have := foldl_inv
    (fun o : Option SLedger => ∀ c, o = some c → ∀ d a, c d a = 15 ∨ c d a = 0)
    (fun o d => o.bind (initDayCapacity prefs d)) DAYS (some (fun _ _ => 0))
    ?_ ?_ c0 hinit
  · exact this
  · intro c hc d a
    obtain rfl := Option.some_injective _ hc
    exact Or.inr rfl
  · intro o d ho _ c hc
    rcases o with _ | c1
    · simp at hc
    · simp only [Option.bind_some] at hc
      exact initDay_vals prefs d c1 c (ho c1 rfl) hc

theorem runAllocation_decomp (prefs : Preferences) :
    runAllocation prefs = (initActivityCapacity prefs).map (fun c0 =>
      let st1 := assign_priority_group (tierFilter prefs "high") c0
      let st2 := assign_priority_group (tierFilter prefs "medium") st1.2
      let st3 := assign_priority_group (tierFilter prefs "low") st2.2
      (updateGA (updateGA (updateGA [] st1.1) st2.1) st3.1, st3.2)) := rfl

theorem gawf_append {a b : GA} (ha : GAwf a) (hb : GAwf b)
    (hd : ∀ k ∈ b.map Prod.fst, k ∉ a.map Prod.fst) : GAwf (a ++ b) := by
  constructor
  · rw [List.map_append]
    exact ha.1.append hb.1 (fun k hk1 hk2 => hd k hk2 hk1)
  · intro p hp
    rcases List.mem_append.mp hp with h | h
    · exact ha.2 p h
    · exact hb.2 p h

theorem tiers_disjoint {prefs : Preferences} (hnd : (prefs.map Prod.fst).Nodup)
    {w1 w2 : String} (hne : w1 ≠ w2) (c1 c2 : SLedger) :
    ∀ k ∈ (assign_priority_group (tierFilter prefs w1) c1).1.map Prod.fst,
      k ∉ (assign_priority_group (tierFilter prefs w2) c2).1.map Prod.fst := by
  intro k hk hk2
  exact weights_clash hnd hne (tier_key_weight (apg_keys _ _ hk).1)
    (tier_key_weight (apg_keys _ _ hk2).1)

theorem run_split {prefs : Preferences} {asg : GA} {cap : SLedger}
    (hwf : WFPrefs prefs) (hrun : runAllocation prefs = some (asg, cap)) :
    ∃ c0, initActivityCapacity prefs = some c0 ∧
      asg = ((assign_priority_group (tierFilter prefs "high") c0).1 ++
             (assign_priority_group (tierFilter prefs "medium")
               (assign_priority_group (tierFilter prefs "high") c0).2).1) ++
            (assign_priority_group (tierFilter prefs "low")
              (assign_priority_group (tierFilter prefs "medium")
                (assign_priority_group (tierFilter prefs "high") c0).2).2).1 ∧
      cap = (assign_priority_group (tierFilter prefs "low")
              (assign_priority_group (tierFilter prefs "medium")
                (assign_priority_group (tierFilter prefs "high") c0).2).2).2 ∧
      GAwf asg := by
  rw [runAllocation_decomp] at hrun
  rcases hinit : initActivityCapacity prefs with _ | c0
  · rw [hinit] at hrun
    simp at hrun
  · rw [hinit] at hrun
    simp only [Option.map_some] at hrun
    obtain ⟨hasg, hcap⟩ := Prod.mk.injEq .. ▸ (Option.some_injective _ hrun)
    have hg1 := apg_wf (tierFilter prefs "high") c0
    have hg2 := apg_wf (tierFilter prefs "medium")
      (assign_priority_group (tierFilter prefs "high") c0).2
    have hg3 := apg_wf (tierFilter prefs "low")
      (assign_priority_group (tierFilter prefs "medium")
        (assign_priority_group (tierFilter prefs "high") c0).2).2
    have h1 : updateGA [] (assign_priority_group (tierFilter prefs "high") c0).1 =
        (assign_priority_group (tierFilter prefs "high") c0).1 := by
      rw [updateGA_disjoint (fun k _ hk => by simp at hk) hg1.1]
      simp
    have hd12 := tiers_disjoint hwf.1
      (show ("medium" : String) ≠ "high" by decide)
      (assign_priority_group (tierFilter prefs "high") c0).2 c0
    have h2 : updateGA (assign_priority_group (tierFilter prefs "high") c0).1
        (assign_priority_group (tierFilter prefs "medium")
          (assign_priority_group (tierFilter prefs "high") c0).2).1 =
        (assign_priority_group (tierFilter prefs "high") c0).1 ++
        (assign_priority_group (tierFilter prefs "medium")
          (assign_priority_group (tierFilter prefs "high") c0).2).1 :=
      updateGA_disjoint hd12 hg2.1
    have hd3 : ∀ k ∈ (assign_priority_group (tierFilter prefs "low")
          (assign_priority_group (tierFilter prefs "medium")
            (assign_priority_group (tierFilter prefs "high") c0).2).2).1.map Prod.fst,
        k ∉ ((assign_priority_group (tierFilter prefs "high") c0).1 ++
             (assign_priority_group (tierFilter prefs "medium")
               (assign_priority_group (tierFilter prefs "high") c0).2).1).map Prod.fst := by
      intro k hk
      rw [List.map_append, List.mem_append]
      rintro (h2m | h2m)
      · exact tiers_disjoint hwf.1 (show ("low" : String) ≠ "high" by decide) _ _ k hk h2m
      · exact tiers_disjoint hwf.1 (show ("low" : String) ≠ "medium" by decide) _ _ k hk h2m
    have hasg2 : asg = ((assign_priority_group (tierFilter prefs "high") c0).1 ++
             (assign_priority_group (tierFilter prefs "medium")
               (assign_priority_group (tierFilter prefs "high") c0).2).1) ++
            (assign_priority_group (tierFilter prefs "low")
              (assign_priority_group (tierFilter prefs "medium")
                (assign_priority_group (tierFilter prefs "high") c0).2).2).1 := by
      rw [← hasg, h1, h2, updateGA_disjoint hd3 hg3.1]
    refine ⟨c0, rfl, hasg2, hcap.symm, ?_⟩
    rw [hasg2]
    exact gawf_append (gawf_append hg1 hg2 hd12) hg3 hd3

theorem mem2_append {g1 g2 : GA} {s d a : String} (h : mem2 (g1 ++ g2) s d a) :
    mem2 g1 s d a ∨ mem2 g2 s d a := by
  obtain ⟨das, hm, hin⟩ := h
  rcases List.mem_append.mp hm with h2 | h2
  · exact Or.inl ⟨das, h2, hin⟩
  · exact Or.inr ⟨das, h2, hin⟩

theorem rankedIn_filter {prefs : Preferences} {w s d a : String}
    (h : RankedIn (tierFilter prefs w) s d a) : RankedIn prefs s d a := by
  obtain ⟨sdata, hm, dp, hdp, hor⟩ := h
  exact ⟨sdata, (tierFilter_mem hm).1, dp, hdp, hor⟩

theorem run_ranked {prefs : Preferences} {asg : GA} {cap : SLedger}
    (hwf : WFPrefs prefs) (hrun : runAllocation prefs = some (asg, cap)) :
    ∀ s d a, mem2 asg s d a → RankedIn prefs s d a := by
  obtain ⟨c0, hinit, hasg, hcap⟩ := run_split hwf hrun
  intro s d a hm
  rw [hasg] at hm
  rcases mem2_append hm with hm2 | hm2
  · rcases mem2_append hm2 with hm3 | hm3
    · exact rankedIn_filter (apg_mem2 _ _ hm3)
    · exact rankedIn_filter (apg_mem2 _ _ hm3)
  · exact rankedIn_filter (apg_mem2 _ _ hm2)

theorem bump_other {acc : Satisfaction} {dp : DayPrefs} {act : String}
    (h : act = dp.first ∨ act = dp.second ∨ act = dp.third) :
    (bumpSatisfaction acc dp act).other = acc.other := by
  unfold bumpSatisfaction
  by_cases h1 : act = dp.first
  · rw [if_pos h1]
  · rw [if_neg h1]
    by_cases h2 : act = dp.second
    · rw [if_pos h2]
    · rw [if_neg h2]
      by_cases h3 : act = dp.third
      · rw [if_pos h3]
      · rcases h with h | h | h
        · exact absurd h h1
        · exact absurd h h2
        · exact absurd h h3

theorem satDays_other (prefs : Preferences) (sid : String) :
    ∀ (das : List (String × String)) (acc acc' : Satisfaction),
      (∀ d act, (d, act) ∈ das → ∃ sdata, alookup prefs sid = some sdata ∧
        ∃ dp, alookup sdata.days d = some dp ∧
          (act = dp.first ∨ act = dp.second ∨ act = dp.third)) →
      satDays prefs sid das acc = some acc' → acc'.other = acc.other := by
  intro das
  induction das with
  | nil =>
    intro acc acc' _ hsat
    simp only [satDays] at hsat
    obtain rfl := Option.some_injective _ hsat
    rfl
  | cons q rest ih =>
    intro acc acc' hr hsat
    rcases q with ⟨d, act⟩
    obtain ⟨sdata, hs, dp, hdp, hor⟩ := hr d act (List.mem_cons_self _ _)
    simp only [satDays, hs, hdp] at hsat
    have := ih (bumpSatisfaction acc dp act) acc'
      (fun d2 a2 hm => hr d2 a2 (List.mem_cons_of_mem _ hm)) hsat
    rw [this, bump_other hor]

theorem computeSat_other (prefs : Preferences) :
    ∀ (ga : GA) (acc acc' : Satisfaction),
      (∀ s das, (s, das) ∈ ga → ∀ d act, (d, act) ∈ das →
        ∃ sdata, alookup prefs s = some sdata ∧
          ∃ dp, alookup sdata.days d = some dp ∧
            (act = dp.first ∨ act = dp.second ∨ act = dp.third)) →
      computeSatisfaction prefs ga acc = some acc' → acc'.other = acc.other := by
  intro ga
  induction ga with
  | nil =>
    intro acc acc' _ hsat
    simp only [computeSatisfaction] at hsat
    obtain rfl := Option.some_injective _ hsat
    rfl
  | cons p rest ih =>
    intro acc acc' hr hsat
    rcases p with ⟨sid, das⟩
    simp only [computeSatisfaction] at hsat
    rcases hsd : satDays prefs sid das acc with _ | acc1
    · rw [hsd] at hsat
      exact Option.noConfusion hsat
    · rw [hsd] at hsat
      have h1 := ih acc1 acc'
        (fun s2 das2 hm => hr s2 das2 (List.mem_cons_of_mem _ hm)) hsat
      have h2 := satDays_other prefs sid das acc acc1
        (hr sid das (List.mem_cons_self _ _)) hsd
      rw [h1, h2]

theorem ranked_alookup {prefs : Preferences} (hwf : WFPrefs prefs)
    {s d a : String} (hr : RankedIn prefs s d a) :
    ∃ sdata, alookup prefs s = some sdata ∧
      ∃ dp, alookup sdata.days d = some dp ∧
        (a = dp.first ∨ a = dp.second ∨ a = dp.third) := by
  obtain ⟨sdata, hm, dp, hdp, hor⟩ := hr
  exact ⟨sdata, mem_alookup_of_nodup hwf.1 hm, dp,
    mem_alookup_of_nodup (hwf.2 (s, sdata) hm).1 hdp, hor⟩

/-- C1: the claim says an already-committed (student, day) pair contributes
neither its source edge nor its outgoing edge to the next pass's network.
The code's `create_priority_network` receives no assignment information and
adds both edges regardless: after the 1st-preference pass has committed
(S1, mon) to activity a, the 2nd-preference network still contains the
source edge of the S1-mon node and its outgoing edge to (mon, b), so the
solver can route flow through the already-resolved node. -/
theorem c1_committed_node_still_in_network :
    c1AfterFirstPass.map (fun st => lookup2 st.1 "S1" "mon") = some (some "a") ∧
    c1SecondNetwork.map (fun G =>
      decide ((⟨Node.source, Node.sd "S1" "mon", 1, 0⟩ : Edge) ∈ G ∧
        (⟨Node.sd "S1" "mon", Node.ad "mon" "b", 1, 0⟩ : Edge) ∈ G)) = some true := by
  constructor
  · decide
  · decide

/-- C3: the allocator is fully serialized: the run equals the high-tier
group pass on the initial capacities, then the medium-tier pass on the
capacities left by the whole high tier, then the low-tier pass on the
capacities left by both, with the assignment dicts merged in that order;
and within a tier the 1st-, 2nd- and 3rd-preference passes are composed in
that order, each threading the ledger to the next. -/
theorem c3_tiers_and_levels_serialized :
    (∀ prefs : Preferences, runAllocation prefs =
      (initActivityCapacity prefs).map (fun c0 =>
        let st1 := assign_priority_group (tierFilter prefs "high") c0
        let st2 := assign_priority_group (tierFilter prefs "medium") st1.2
        let st3 := assign_priority_group (tierFilter prefs "low") st2.2
        (updateGA (updateGA (updateGA [] st1.1) st2.1) st3.1, st3.2))) ∧
    (∀ (students : Preferences) (c : SLedger),
      assign_priority_group students c =
        runLevelPass students Level.third
          (runLevelPass students Level.second
            (runLevelPass students Level.first ([], c)))) :=
  ⟨runAllocation_decomp, apg_eq⟩

/-- C6: the claim says a student lacking a preference record for one day is
simply absent from that day and the run proceeds.  In the code the
capacity-initialization loop reads `student_data['days'][day]` for every
student and every configured day, so one student with only a Monday record
raises `KeyError`, the exception handler returns `(None, None)`, and the
whole run produces no assignments for anyone. -/
theorem c6_missing_day_aborts_whole_run :
    initActivityCapacity prefsMissingDay = none ∧
    runAssignments prefsMissingDay = none ∧
    assign_students_to_activities [] prefsMissingDay = none := by
  exact ⟨rfl, rfl, rfl⟩

/-- C8: the claim says the commit fails with `CapacityExhausted` when the
remaining count is already 0.  The code's commit is the bare decrement
`activity_capacity[day][activity] -= 1`: at a remaining count of 0 it
produces -1 instead of failing. -/
theorem c8_commit_at_zero_goes_negative :
    commitCapacity (fun _ _ => 0) "mon" "a" "mon" "a" = -1 := rfl

/-- C8 (amended): the commit operation decrements the given (day, activity)
by exactly 1 unconditionally, leaves every other key unchanged, and has no
exhaustion check or error path. -/
theorem c8_commit_is_bare_decrement :
    ∀ (c : SLedger) (d a : String),
      commitCapacity c d a d a = c d a - 1 ∧
      ∀ d2 a2, ¬(d2 = d ∧ a2 = a) → commitCapacity c d a d2 a2 = c d2 a2 := by
  intro c d a
  constructor
  · simp [commitCapacity]
  · intro d2 a2 h
    simp only [commitCapacity, if_neg h]

theorem c8_commit_is_bare_decrement_witness :
    commitCapacity (fun _ _ => 5) "mon" "a" "mon" "a" = 4 ∧
    commitCapacity (fun _ _ => 5) "mon" "a" "tue" "a" = 5 :=
  ⟨((c8_commit_is_bare_decrement (fun _ _ => 5) "mon" "a").1).trans (by decide),
   ((c8_commit_is_bare_decrement (fun _ _ => 5) "mon" "a").2 "tue" "a" (by decide))⟩

/-- C9: the weighted network G is dead logic: the body of
`assign_students_to_activities` never reads its G parameter, so any two
networks (in particular the one `build_flow_network` constructs in `run`
and an empty one) give identical assignments and satisfaction counts. -/
theorem c9_weighted_network_is_dead_logic :
    (∀ (G G2 : List Edge) (prefs : Preferences),
        assign_students_to_activities G prefs = assign_students_to_activities G2 prefs) ∧
    (∀ (prefs : Preferences) (maxCap : Int),
        assign_students_to_activities ((build_flow_network prefs maxCap).getD []) prefs =
          assign_students_to_activities [] prefs) :=
  ⟨fun _ _ _ => rfl, fun _ _ => rfl⟩

/-- Over the structural-node model - that is, on collision-free inputs,
where no student-day name merges with an activity-day name - every
completed run keeps commitments per (day, activity) at or below 15, the
final remaining capacity non-negative, and final capacity plus
commitments equal to the initial capacity.  On colliding names the
program itself breaks this bound: see the claim C2 theorem. -/
theorem capacity_bound_without_collisions :
    ∀ (prefs : Preferences) (asg : GA), WFPrefs prefs →
      runAssignments prefs = some asg →
      ∀ d a, gaCount asg d a ≤ 15 ∧
        ∃ v c0v, runLedgerAt prefs d a = some v ∧ initCapAt prefs d a = some c0v ∧
          0 ≤ v ∧ (c0v = 15 ∨ c0v = 0) ∧ v + (gaCount asg d a : Int) = c0v := by
  intro prefs asg hwf hrun d a
  unfold runAssignments at hrun
  rcases hra : runAllocation prefs with _ | st
  · rw [hra] at hrun
    exact Option.noConfusion hrun
  · rcases st with ⟨asg2, cap2⟩
    rw [hra] at hrun
    obtain rfl : asg = asg2 := (Option.some_injective _ hrun).symm
    obtain ⟨c0, hinit, hasg, hcap, -⟩ := run_split hwf hra
    have hcons1 := apg_conservation (tierFilter prefs "high") c0 d a
    have hcons2 := apg_conservation (tierFilter prefs "medium")
      (assign_priority_group (tierFilter prefs "high") c0).2 d a
    have hcons3 := apg_conservation (tierFilter prefs "low")
      (assign_priority_group (tierFilter prefs "medium")
        (assign_priority_group (tierFilter prefs "high") c0).2).2 d a
    have h0 : ∀ d2 a2, 0 ≤ c0 d2 a2 := by
      intro d2 a2
      rcases init_vals hinit d2 a2 with h | h <;> omega
    have hn3 := apg_nonneg (tierFilter prefs "low")
      (assign_priority_group (tierFilter prefs "medium")
        (assign_priority_group (tierFilter prefs "high") c0).2).2
      (apg_nonneg (tierFilter prefs "medium")
        (assign_priority_group (tierFilter prefs "high") c0).2
        (apg_nonneg (tierFilter prefs "high") c0 h0)) d a
    have hcnt : gaCount asg d a =
        gaCount (assign_priority_group (tierFilter prefs "high") c0).1 d a +
        gaCount (assign_priority_group (tierFilter prefs "medium")
          (assign_priority_group (tierFilter prefs "high") c0).2).1 d a +
        gaCount (assign_priority_group (tierFilter prefs "low")
          (assign_priority_group (tierFilter prefs "medium")
            (assign_priority_group (tierFilter prefs "high") c0).2).2).1 d a := by
      rw [hasg, gaCount_append, gaCount_append]
    have hv2 : cap2 d a = (assign_priority_group (tierFilter prefs "low")
        (assign_priority_group (tierFilter prefs "medium")
          (assign_priority_group (tierFilter prefs "high") c0).2).2).2 d a := by
      rw [hcap]
    have hvv : runLedgerAt prefs d a = some (cap2 d a) := by
      unfold runLedgerAt
      rw [hra]
      rfl
    have hc0v : initCapAt prefs d a = some (c0 d a) := by
      unfold initCapAt
      rw [hinit]
      rfl
    have hinitv := init_vals hinit d a
    refine ⟨?_, cap2 d a, c0 d a, hvv, hc0v, ?_, hinitv, ?_⟩
    · omega
    · omega
    · omega

/-- C5: every committed entry of a completed run matches the student's
1st, 2nd or 3rd ranked choice for that day, so classifying the allocator's
own output yields an `other` count of zero. -/
theorem c5_output_never_other :
    ∀ (G : List Edge) (prefs : Preferences) (asg : GA) (sat : Satisfaction),
      WFPrefs prefs → assign_students_to_activities G prefs = some (asg, sat) →
      sat.other = 0 := by
  intro G prefs asg sat hwf h
  unfold assign_students_to_activities at h
  rcases hra : runAllocation prefs with _ | st
  · rw [hra] at h
    exact Option.noConfusion h
  · rcases st with ⟨asg2, cap2⟩
    rw [hra] at h
    have h2 : (if asg2 = [] then none
        else (computeSatisfaction prefs asg2 ⟨0, 0, 0, 0⟩).map
          (fun sat2 => (asg2, sat2))) = some (asg, sat) := h
    split at h2
    · exact Option.noConfusion h2
    · rcases hcs : computeSatisfaction prefs asg2 ⟨0, 0, 0, 0⟩ with _ | sat2
      · rw [hcs] at h2
        exact Option.noConfusion h2
      · rw [hcs] at h2
        have h3 : (asg2, sat2) = (asg, sat) := Option.some_injective _ h2
        obtain ⟨h4, h5⟩ := Prod.mk.injEq .. ▸ h3
        have hr := run_ranked hwf hra
        have hall : ∀ s das, (s, das) ∈ asg2 → ∀ d act, (d, act) ∈ das →
            ∃ sdata, alookup prefs s = some sdata ∧
              ∃ dp, alookup sdata.days d = some dp ∧
                (act = dp.first ∨ act = dp.second ∨ act = dp.third) :=
          fun s das hm d act hin => ranked_alookup hwf (hr s d act ⟨das, hm, hin⟩)
        have hother := computeSat_other prefs asg2 ⟨0, 0, 0, 0⟩ sat2 hall hcs
        rw [← h5]
        exact hother

/-- C10: the flow-extraction filter `student_id.startswith('S')` means a
student whose id does not begin with S is never committed: every key of
the final assignments dict starts with S, and looking up any other id
yields nothing, regardless of preferences or capacity. -/
theorem c10_non_s_students_never_assigned :
    ∀ (prefs : Preferences) (asg : GA), runAssignments prefs = some asg →
      (∀ p ∈ asg, startsWithS p.1 = true) ∧
      ∀ sid, startsWithS sid = false → alookup asg sid = none := by
  intro prefs asg hrun
  unfold runAssignments at hrun
  rcases hra : runAllocation prefs with _ | st
  · rw [hra] at hrun
    exact Option.noConfusion hrun
  · rw [hra] at hrun
    obtain rfl : asg = st.1 := (Option.some_injective _ hrun).symm
    rw [runAllocation_decomp] at hra
    rcases hinit : initActivityCapacity prefs with _ | c0
    · rw [hinit] at hra
      exact Option.noConfusion hra
    · rw [hinit] at hra
      obtain rfl := (Option.some_injective _ hra).symm
      have hforward : ∀ p ∈ (updateGA (updateGA (updateGA []
          (assign_priority_group (tierFilter prefs "high") c0).1)
          (assign_priority_group (tierFilter prefs "medium")
            (assign_priority_group (tierFilter prefs "high") c0).2).1)
          (assign_priority_group (tierFilter prefs "low")
            (assign_priority_group (tierFilter prefs "medium")
              (assign_priority_group (tierFilter prefs "high") c0).2).2).1),
          startsWithS p.1 = true := by
        intro p hp
        rcases updateGA_mem hp with h2 | h3
        · rcases updateGA_mem h2 with h4 | h5
          · rcases updateGA_mem h4 with h6 | h7
            · simp at h6
            · exact (apg_keys _ _ (List.mem_map.mpr ⟨p, h7, rfl⟩)).2
          · exact (apg_keys _ _ (List.mem_map.mpr ⟨p, h5, rfl⟩)).2
        · exact (apg_keys _ _ (List.mem_map.mpr ⟨p, h3, rfl⟩)).2
      constructor
      · exact hforward
      · intro sid hS
        rcases halo : alookup (updateGA (updateGA (updateGA []
            (assign_priority_group (tierFilter prefs "high") c0).1)
            (assign_priority_group (tierFilter prefs "medium")
              (assign_priority_group (tierFilter prefs "high") c0).2).1)
            (assign_priority_group (tierFilter prefs "low")
              (assign_priority_group (tierFilter prefs "medium")
                (assign_priority_group (tierFilter prefs "high") c0).2).2).1) sid
            with _ | das
        · rfl
        · have h2 : startsWithS sid = true := hforward (sid, das) (alookup_mem halo)
          rw [hS] at h2
          exact Bool.noConfusion h2

/-- C4: the final assignments dict holds at most one activity per
(student, day): its student keys and each student's day keys are
duplicate-free; and a commitment is never overwritten or removed: the
flow-processing loop preserves every existing (student, day) entry, so
does any sequence of level passes, and an entry committed by the high tier
(or by the high and medium tiers together) survives unchanged into the
final mapping of the run. -/
theorem c4_first_commitment_wins :
    (∀ (prefs : Preferences) (asg : GA), WFPrefs prefs →
        runAssignments prefs = some asg →
        (asg.map Prod.fst).Nodup ∧ ∀ p ∈ asg, (p.2.map Prod.fst).Nodup) ∧
    (∀ (es : List FlowEntry) (ga : GA) (c : SLedger) (s d a : String),
        lookup2 ga s d = some a → lookup2 (processFlow es ga c).1 s d = some a) ∧
    (∀ (students : Preferences) (lvls : List Level) (st : GA × SLedger) (s d a : String),
        lookup2 st.1 s d = some a →
        lookup2 (lvls.foldl (fun st2 lvl => runLevelPass students lvl st2) st).1 s d =
          some a) ∧
    (∀ (prefs : Preferences) (g1 asg : GA) (s d a : String), WFPrefs prefs →
        highTierAssignments prefs = some g1 → runAssignments prefs = some asg →
        lookup2 g1 s d = some a → lookup2 asg s d = some a) ∧
    (∀ (prefs : Preferences) (g12 asg : GA) (s d a : String), WFPrefs prefs →
        highMedAssignments prefs = some g12 → runAssignments prefs = some asg →
        lookup2 g12 s d = some a → lookup2 asg s d = some a) := by
  refine ⟨?_, ?_, ?_, ?_, ?_⟩
  · intro prefs asg hwf hrun
    unfold runAssignments at hrun
    rcases hra : runAllocation prefs with _ | st
    · rw [hra] at hrun
      exact Option.noConfusion hrun
    · rcases st with ⟨asg2, cap2⟩
      rw [hra] at hrun
      obtain rfl : asg = asg2 := (Option.some_injective _ hrun).symm
      obtain ⟨c0, hinit, hasg, hcap, hwfga⟩ := run_split hwf hra
      exact hwfga
  · intro es ga c s d a h
    exact pf_persist es ga c s d a h
  · intro students lvls st s d a h
    exact levels_persist students lvls st s d a h
  · intro prefs g1 asg s d a hwf hg1 hrun hl
    unfold runAssignments at hrun
    rcases hra : runAllocation prefs with _ | st
    · rw [hra] at hrun
      exact Option.noConfusion hrun
    · rcases st with ⟨asg2, cap2⟩
      rw [hra] at hrun
      obtain rfl : asg = asg2 := (Option.some_injective _ hrun).symm
      obtain ⟨c0, hinit, hasg, -, -⟩ := run_split hwf hra
      unfold highTierAssignments highTierState at hg1
      rw [hinit] at hg1
      have hg1b : some (assign_priority_group (tierFilter prefs "high") c0).1 =
          some g1 := hg1
      obtain rfl := (Option.some_injective _ hg1b).symm
      rw [hasg]
      exact lookup2_append_left (lookup2_append_left hl)
  · intro prefs g12 asg s d a hwf hg12 hrun hl
    unfold runAssignments at hrun
    rcases hra : runAllocation prefs with _ | st
    · rw [hra] at hrun
      exact Option.noConfusion hrun
    · rcases st with ⟨asg2, cap2⟩
      rw [hra] at hrun
      obtain rfl : asg = asg2 := (Option.some_injective _ hrun).symm
      obtain ⟨c0, hinit, hasg, -, -⟩ := run_split hwf hra
      unfold highMedAssignments highTierState at hg12
      rw [hinit] at hg12
      have hg12b : some (updateGA (assign_priority_group (tierFilter prefs "high") c0).1
          (assign_priority_group (tierFilter prefs "medium")
            (assign_priority_group (tierFilter prefs "high") c0).2).1) = some g12 := hg12
      obtain rfl := (Option.some_injective _ hg12b).symm
      have hd12 := tiers_disjoint hwf.1
        (show ("medium" : String) ≠ "high" by decide)
        (assign_priority_group (tierFilter prefs "high") c0).2 c0
      rw [updateGA_disjoint hd12
        (apg_wf (tierFilter prefs "medium")
          (assign_priority_group (tierFilter prefs "high") c0).2).1] at hl
      rw [hasg]
      exact lookup2_append_left hl

theorem loadRows_malformed_cons (r : Row) (hmal : malformedRow r)
    (rest : List Row) (acc : Preferences) :
    loadRows (r :: rest) acc = loadRows [r] acc ∧
    (loadRows (r :: rest) acc).2 = true := by
  rcases hsid : r.student_id with _ | sid
  · constructor <;> simp [loadRows, hsid]
  · rcases hd : r.day with _ | d <;>
      rcases h1 : r.pref1 with _ | a1 <;>
      rcases h2 : r.pref2 with _ | a2 <;>
      rcases h3 : r.pref3 with _ | a3 <;>
      simp only [loadRows, hsid, hd, h1, h2, h3] <;>
      first
      | exact ⟨trivial, trivial⟩
      | exact absurd hmal (by simp [malformedRow, hsid, hd, h1, h2, h3])

theorem loadRows_stop (r : Row) (hmal : malformedRow r) :
    ∀ (pre : List Row) (acc : Preferences) (rest : List Row),
      loadRows (pre ++ r :: rest) acc = loadRows (pre ++ [r]) acc ∧
      (loadRows (pre ++ r :: rest) acc).2 = true := by
  intro pre
  induction pre with
  | nil =>
    intro acc rest
    simpa using loadRows_malformed_cons r hmal rest acc
  | cons p pre2 ih =>
    intro acc rest
    rcases hsid : p.student_id with _ | sid
    · constructor <;> simp [loadRows, hsid]
    · rcases hd : p.day with _ | d <;>
        rcases h1 : p.pref1 with _ | a1 <;>
        rcases h2 : p.pref2 with _ | a2 <;>
        rcases h3 : p.pref3 with _ | a3 <;>
        simp only [List.cons_append, loadRows, hsid, hd, h1, h2, h3] <;>
        first
        | exact ⟨trivial, trivial⟩
        | exact ih _ _

/-- C7: the claim says only the malformed row fails and loading continues
with the remaining rows, reporting the loaded count.  The code wraps the
whole row loop in one try/except: the first malformed row aborts the loop,
earlier rows are kept, later rows are never read (student S3 is lost), and
the error message replaces the count report. -/
theorem c7_counterexample_later_rows_lost :
    alookup (load_student_preferences [rowGood1, rowBad, rowGood2]).1 "S3" = none ∧
    (load_student_preferences [rowGood1, rowBad, rowGood2]).2 = true ∧
    alookup (load_student_preferences [rowGood1, rowBad, rowGood2]).1 "S1" =
      some ⟨"high", [("mon", ⟨"a", "b", "c"⟩)]⟩ := by
  refine ⟨by decide, by decide, by decide⟩

/-- C7 (amended): when the loader hits a malformed row, loading stops at
that row: the rows after it have no effect on the result, and the run ends
on the error path (no loaded-count report) with the earlier rows'
records retained. -/
theorem c7_load_stops_at_first_malformed_row :
    ∀ (pre : List Row) (r : Row) (rest : List Row), malformedRow r →
      load_student_preferences (pre ++ r :: rest) =
        load_student_preferences (pre ++ [r]) ∧
      (load_student_preferences (pre ++ r :: rest)).2 = true := by
  intro pre r rest hmal
  exact loadRows_stop r hmal pre [] rest

theorem c7_load_stops_at_first_malformed_row_witness :
    load_student_preferences ([rowGood1] ++ rowBad :: [rowGood2]) =
      load_student_preferences ([rowGood1] ++ [rowBad]) ∧
    (load_student_preferences ([rowGood1] ++ rowBad :: [rowGood2])).2 = true :=
  c7_load_stops_at_first_malformed_row [rowGood1] rowBad [rowGood2] (Or.inr (Or.inl rfl))

theorem c4_first_commitment_wins_witness :
    lookup2 (processFlow [⟨"S9", "mon", "mon", "z"⟩] [("S1", [("mon", "a")])]
      (fun _ _ => 5)).1 "S1" "mon" = some "a" ∧
    lookup2 asgSolo "S1" "mon" = some "a" :=
  ⟨c4_first_commitment_wins.2.1 [⟨"S9", "mon", "mon", "z"⟩] [("S1", [("mon", "a")])]
      (fun _ _ => 5) "S1" "mon" "a" rfl,
   c4_first_commitment_wins.2.2.2.1 prefsSolo asgSolo asgSolo "S1" "mon" "a"
      (by decide) (by decide) (by decide) rfl⟩

theorem c5_output_never_other_witness : (⟨4, 0, 0, 0⟩ : Satisfaction).other = 0 :=
  c5_output_never_other [] prefsSolo asgSolo ⟨4, 0, 0, 0⟩ (by decide) (by decide)

theorem c10_non_s_students_never_assigned_witness : alookup asgSolo "T1" = none :=
  (c10_non_s_students_never_assigned prefsWithT asgSolo (by decide)).2 "T1" (by decide)

set_option maxRecDepth 16384

/-- C2: the claimed capacity bound fails on the program.  networkx keys
nodes by the strings `f"{sid}_{day}"` and `f"{day}_{activity}"`, so for
the input `prefsCollide` - sixteen S-students whose Tuesday 1st choice is
the activity named "wed", plus a student literally named "tue" holding a
Wednesday record - the student-day name and the activity-day name
coincide and networkx merges them into one node.  That merged node's
out-capacity is 16 (the capacity-15 sink edge plus the "tue" student's
own capacity-1 preference edge), so an integral maximum flow compliant
with the spec's section 4.3 solver contract may saturate all sixteen
student-day edges into it; the commit loop (lines 104-115) then records
sixteen assignments to the 15-capacity Activity-Day (tue, "wed") and
drives its remaining-capacity counter to -1.  The conjuncts below verify,
by evaluation: the name collision; the initial capacity 15; the merged
node's out-capacity 16 in the string-keyed network; the presence of the
source edge that makes it a student-day node and of all sixteen
student-day edges into it; and that the code's commit loop, given those
sixteen saturated edges, records 16 commitments and a ledger value of -1.
The input satisfies `WFPrefs`. -/
theorem c2_name_collision_overcommits :
    nodeNameSD "tue" "wed" = nodeNameAD "tue" "wed" ∧
    WFPrefs prefsCollide ∧
    initCapAt prefsCollide "tue" "wed" = some 15 ∧
    outCapacityStr c2CollideNetwork (nodeNameAD "tue" "wed") = 16 ∧
    (⟨"source", nodeNameSD "tue" "wed", 1, 0⟩ : StrEdge) ∈ c2CollideNetwork ∧
    collideEntries.all (fun x => decide
      ((⟨nodeNameSD x.sid "tue", nodeNameAD "tue" "wed", 1, 0⟩ : StrEdge) ∈
        c2CollideNetwork)) = true ∧
    gaCount (processFlow collideEntries [] c2CollideCap).1 "tue" "wed" = 16 ∧
    (processFlow collideEntries [] c2CollideCap).2 "tue" "wed" = -1 := by
  refine ⟨by decide, by decide, by decide, by decide, by decide, by decide, by decide, by decide⟩
